import Mathlib

/-!
Verification of the `uuid` Go library (proemergotech/uuid).

The library represents a UUID as a Go `string` (canonical 36-character
hyphenated form, the nil UUID being the empty string).  We embed strings as
`List Char`, bytes as `Nat` (always kept below 256 at creation sites), and
Go's `[]byte` as `List Nat`.  Go functions that can return an error or panic
(out-of-range slice or index) are embedded with explicit result types.

All definitions follow the source file `uuid.go`; definitions whose doc
comment says so model the claim/spec wording instead, for refinement
comparisons.
-/

namespace UUIDGo

/-- Outcome of a Go computation that may panic (e.g. out-of-range slicing) or
return an error. The error payload is the Go error message as a char list. -/
inductive GoResult (α : Type) where
  | panic : GoResult α
  | err : List Char → GoResult α
  | ok : α → GoResult α
  deriving Repr, DecidableEq

/-- Go slice expression `s[lo:hi]`: `none` models the out-of-range panic. -/
def goSlice (s : List α) (lo hi : Nat) : Option (List α) :=
  if lo ≤ hi ∧ hi ≤ s.length then some ((s.drop lo).take (hi - lo)) else none

/-- Go slice expression `s[lo:]`: `none` models the out-of-range panic. -/
def goSliceFrom (s : List α) (lo : Nat) : Option (List α) :=
  if lo ≤ s.length then some (s.drop lo) else none

/-- Go index expression `s[i]`: `none` models the out-of-range panic. -/
def goIndex (s : List α) (i : Nat) : Option α :=
  s.get? i

/-- Character-range test by code point; `'0' ≤ c && c ≤ '9'` in Go is a
numeric comparison of code points. -/
def inRange (lo hi : Nat) (c : Char) : Bool :=
  lo ≤ c.toNat && c.toNat ≤ hi

/-- Hex-digit value of one character, as in `encoding/hex.fromHexChar`:
accepts `0-9`, `a-f` and `A-F`. -/
def fromHexChar (c : Char) : Option Nat :=
  if inRange 48 57 c then some (c.toNat - 48)
  else if inRange 97 102 c then some (c.toNat - 97 + 10)
  else if inRange 65 70 c then some (c.toNat - 65 + 10)
  else none

/-- Decoding of a hex string into bytes, as in `encoding/hex.DecodeString`:
fails on odd length or on any non-hex character. -/
def hexDecode : List Char → Option (List Nat)
  | [] => some []
  | [_] => none
  | c1 :: c2 :: rest =>
    (fromHexChar c1).bind fun hi =>
      (fromHexChar c2).bind fun lo =>
        (hexDecode rest).map fun bs => (hi * 16 + lo) :: bs

/-- Lookup table of `encoding/hex`: the string `"0123456789abcdef"`. -/
def hextable : List Char := ("0123456789abcdef").data

/-- Hex encoding of one byte, as in `encoding/hex.Encode`:
high nibble then low nibble, via the lookup table. -/
def hexEncByte (b : Nat) : List Char :=
  [hextable.getD (b / 16) ' ', hextable.getD (b % 16) ' ']

/-- Hex encoding of a byte sequence (`encoding/hex.Encode`). -/
def hexEnc : List Nat → List Char
  | [] => []
  | b :: bs => hexEncByte b ++ hexEnc bs

/-- Source function `encodeBytes`: hex-encode the byte groups
`u[0:4], u[4:6], u[6:8], u[8:10], u[10:]` separated by dashes.  In the
library it is only applied to 16-byte inputs, for which this embedding is
exact. -/
def encodeBytes (u : List Nat) : List Char :=
  hexEnc (u.take 4) ++ '-' :: hexEnc ((u.drop 4).take 2) ++
    '-' :: hexEnc ((u.drop 6).take 2) ++ '-' :: hexEnc ((u.drop 8).take 2) ++
    '-' :: hexEnc (u.drop 10)

/-- Character class `[0-9a-f]` under the regex flag `(?i)`. -/
def isHexChar (c : Char) : Bool :=
  inRange 48 57 c || inRange 97 102 c || inRange 65 70 c

/-- Character class `[1-5]` (the version nibble). -/
def isVersionChar (c : Char) : Bool :=
  inRange 49 53 c

/-- Character class `[89ab]` under the regex flag `(?i)` (the variant
nibble). -/
def isVariantChar (c : Char) : Bool :=
  c == '8' || c == '9' || c == 'a' || c == 'b' || c == 'A' || c == 'B'

/-- Consume `n` characters satisfying `p`, returning the rest. -/
def consume (p : Char → Bool) : Nat → List Char → Option (List Char)
  | 0, s => some s
  | _ + 1, [] => none
  | n + 1, c :: s => if p c then consume p n s else none

/-- Consume one expected literal character. -/
def consumeChar (c : Char) : List Char → Option (List Char)
  | [] => none
  | d :: s => if d == c then some s else none

/-- Match of the anchored source regex
`(?i)^[0-9a-f]{8}-[0-9a-f]{4}-[1-5][0-9a-f]{3}-[89ab][0-9a-f]{3}-[0-9a-f]{12}$`. -/
def uuidRegexMatch (s : List Char) : Bool :=
  (do
    let s ← consume isHexChar 8 s
    let s ← consumeChar '-' s
    let s ← consume isHexChar 4 s
    let s ← consumeChar '-' s
    let s ← consume isVersionChar 1 s
    let s ← consume isHexChar 3 s
    let s ← consumeChar '-' s
    let s ← consume isVariantChar 1 s
    let s ← consume isHexChar 3 s
    let s ← consumeChar '-' s
    let s ← consume isHexChar 12 s
    pure s) == some []

/-- ASCII lowering of one character, as `strings.ToLower` acts on the ASCII
strings this library handles. -/
def charToLower (c : Char) : Char :=
  if 65 ≤ c.toNat ∧ c.toNat ≤ 90 then Char.ofNat (c.toNat + 32) else c

/-- Embedding of `strings.ToLower` (ASCII inputs). -/
def toLower (s : List Char) : List Char :=
  s.map charToLower

/-- The literal string `"00000000-0000-0000-0000-000000000000"`. -/
def zeroUUIDStr : List Char :=
  ("00000000-0000-0000-0000-000000000000").data

/-- The all-zero 32-character hash-like string. -/
def zeroHashStr : List Char :=
  ("00000000000000000000000000000000").data

/-- Source function `FromString`.  Go returns the pair (value, error); we
return the value together with an optional error message, since callers
(notably `Scan`) use the returned value even on error. -/
def FromString (str : List Char) : List Char × Option (List Char) :=
  if str = [] ∨ str = zeroUUIDStr then ([], none)
  else if uuidRegexMatch str = false then
    ([], some (("invalid uuid: ").data ++ str))
  else (toLower str, none)

/-- Source function `FromHashLike`.  The length-32 check precedes the
slicing, so the slice expressions are always in range. -/
def FromHashLike (str : List Char) : List Char × Option (List Char) :=
  if str = [] ∨ str = zeroHashStr then ([], none)
  else if str.length ≠ 32 then ([], some (("invalid uuid: ").data ++ str))
  else
    let uuid := str.take 8 ++ '-' :: (str.drop 8).take 4 ++
      '-' :: (str.drop 12).take 4 ++ '-' :: (str.drop 16).take 4 ++
      '-' :: str.drop 20
    if uuidRegexMatch uuid = false then
      ([], some (("invalid uuid: ").data ++ str))
    else (toLower uuid, none)

/-- Source method `HashLike`: `u[0:8] + u[9:13] + u[14:18] + u[19:23] + u[24:]`,
with Go's panics on out-of-range slices modelled by `none`. -/
def HashLike (u : List Char) : Option (List Char) :=
  if u = [] then some []
  else do
    let a ← goSlice u 0 8
    let b ← goSlice u 9 13
    let c ← goSlice u 14 18
    let d ← goSlice u 19 23
    let e ← goSliceFrom u 24
    pure (a ++ b ++ c ++ d ++ e)

/-- Big-endian value of a byte sequence (`big.Int.SetBytes`). -/
def natOfBytes : List Nat → Nat
  | [] => 0
  | b :: bs => b * 256 ^ bs.length + natOfBytes bs

/-- Fixed-width big-endian byte encoding (low-order `k` bytes of `n`). -/
def natToBytesBE : Nat → Nat → List Nat
  | 0, _ => []
  | k + 1, n => natToBytesBE k (n / 256) ++ [n % 256]

/-- Fuel-driven minimal big-endian byte encoding; with fuel at least the
byte length of `n` it yields `big.Int.Bytes`' output (no leading zeros). -/
def minBytesAux : Nat → Nat → List Nat
  | 0, _ => []
  | f + 1, n => if n = 0 then [] else minBytesAux f (n / 256) ++ [n % 256]

/-- Minimal big-endian byte encoding of `n` (`big.Int.Bytes`): empty for 0,
otherwise with no leading zero byte.  Since `n < 256 ^ n`, fuel `n`
suffices for every `n`. -/
def bigIntBytes (n : Nat) : List Nat :=
  minBytesAux n n

/-- The 14-byte odd constant added by `Next`, from `init`:
`bigPrime.UnmarshalText([]byte("908070605040302010203040506070809"))`. -/
def bigPrime : Nat := 908070605040302010203040506070809

/-- The final reassembly of `Next`, source line
`u.encodeBytes(appendAll(cut[:6], b[6:7], cut[6:7], b[8:9], cut[7:]))`
(on the already shortened `cut`, whose length is 14, `cut[7:]` is
`cut[7:14]`). -/
def nextAssemble (b cut : List Nat) : GoResult (List Char) :=
  match goSlice cut 0 6, goSlice b 6 7, goSlice cut 6 7,
      goSlice b 8 9, goSlice cut 7 14 with
  | some q1, some q2, some q3, some q4, some q5 =>
    .ok (encodeBytes (q1 ++ q2 ++ q3 ++ q4 ++ q5))
  | _, _, _, _, _ => .panic

/-- Source method `Next`.  Panics (modelled by `GoResult.panic`) are the Go
out-of-range slice panics; evaluation order of the slice arguments matches
the source left-to-right order but all orders give the same `GoResult`. -/
def Next (u : List Char) : GoResult (List Char) :=
  if u = [] then .ok []
  else
    match HashLike u with
    | none => .panic
    | some hash =>
      match hexDecode hash with
      | none => .err (("invalid uuid: ").data ++ u)
      | some b =>
        match goSlice b 0 6, goSlice b 7 8, goSlice b 9 16 with
        | some p1, some p2, some p3 =>
          let newB := p1 ++ p2 ++ p3
          let sum := natOfBytes newB + bigPrime
          let cut := bigIntBytes sum
          let cut := if cut.length > 14 then cut.drop (cut.length - 14) else cut
          nextAssemble b cut
        | _, _, _ => .panic

/-- Version stamping `(b & 0x0f) | (v4 << 4)` with `v4 = 4`, as written in
`NewV4`, `NewTime` and `XOR`. -/
def stampVersion (b : Nat) : Nat :=
  (b &&& 0x0f) ||| (4 <<< 4)

/-- Variant stamping `b & (0xff >> 2) | (0x02 << 6)`, as written in `NewV4`,
`NewTime` and `XOR`. -/
def stampVariant (b : Nat) : Nat :=
  (b &&& (0xff >>> 2)) ||| (0x02 <<< 6)

/-- Body of `XOR`'s successful path: `arr := make([]byte, 16)` filled by the
loop `arr[i] = b1[i] ^ b2[i]` (bytes past `len(b1)` keep their zero), then
the version and variant stamping of `arr[6]` and `arr[8]`. -/
def xorArr (b1 b2 : List Nat) : List Nat :=
  let arr := (List.range 16).map
    (fun i => if i < b1.length then b1.getD i 0 ^^^ b2.getD i 0 else 0)
  let arr := arr.set 6 (stampVersion (arr.getD 6 0))
  arr.set 8 (stampVariant (arr.getD 8 0))

/-- Source method `XOR`.  The loop `for i := range b1` panics as soon as it
indexes past `arr` (length 16) or past `b2`; it completes exactly when
`len(b1) ≤ min(16, len(b2))`. -/
def XOR (u v : List Char) : GoResult (List Char) :=
  if u = [] ∨ v = [] then .ok []
  else
    match HashLike u, HashLike v with
    | some hash1, some hash2 =>
      match hexDecode hash1 with
      | none => .err (("invalid left side parameter: ").data ++ u)
      | some b1 =>
        match hexDecode hash2 with
        | none => .err (("invalid right side parameter: ").data ++ v)
        | some b2 =>
          if b1.length ≤ b2.length ∧ b1.length ≤ 16 then
            .ok (encodeBytes (xorArr b1 b2))
          else .panic
    | _, _ => .panic

/-- Millisecond Unix timestamp of an instant (source function `Timestamp`):
`uint64(t.Unix())*1000 + uint64(t.Nanosecond()/int(time.Millisecond))`.
An instant is embedded as its non-negative `(seconds, nanoseconds)` pair;
the library's representable range lies entirely in that domain. -/
def Timestamp (sec nsec : Nat) : Nat :=
  sec * 1000 + nsec / 1000000

/-- Source function `Time`: `time.Unix(ms/1e3, (ms%1e3)*1e6).UTC()`; the
nanosecond argument is always below 1e9, so no normalization occurs. -/
def TimeGo (ms : Nat) : Nat × Nat :=
  (ms / 1000, ms % 1000 * 1000000)

/-- Source method `TimeUUIDToTime`: decode the hash-like form and read the
48-bit big-endian millisecond timestamp from bytes 0-5. -/
def TimeUUIDToTime (u : List Char) : GoResult (Nat × Nat) :=
  match HashLike u with
  | none => .panic
  | some h =>
    match hexDecode h with
    | none => .err (("encoding/hex decode error").data)
    | some tmp =>
      match goIndex tmp 5, goIndex tmp 4, goIndex tmp 3,
          goIndex tmp 2, goIndex tmp 1, goIndex tmp 0 with
      | some t5, some t4, some t3, some t2, some t1, some t0 =>
        .ok (TimeGo (t5 ||| (t4 <<< 8) ||| (t3 <<< 16) ||| (t2 <<< 24) |||
          (t1 <<< 32) ||| (t0 <<< 40)))
      | _, _, _, _, _, _ => .panic

/-- The process-wide maximum timestamp computed by `init`:
`Timestamp` of `TimeUUIDToTime` of `FromString("ffffffff-ffff-1000-a000-000000000000")`.
The fallbacks for the impossible error cases are irrelevant (the chain
succeeds). -/
def maxTime : Nat :=
  match TimeUUIDToTime (FromString (("ffffffff-ffff-1000-a000-000000000000")).data).1 with
  | .ok t => Timestamp t.1 t.2
  | _ => 0

/-- Source function `NewTime`, parametrized by the ten random bytes `r` that
`io.ReadFull` places into `u[6:]`.  The `panic("time too big")` branch is
`GoResult.panic`. -/
def NewTime (r : List Nat) (sec nsec : Nat) : GoResult (List Char) :=
  let ms := Timestamp sec nsec
  if ms > maxTime then .panic
  else
    .ok (encodeBytes
      ([(ms >>> 40) % 256, (ms >>> 32) % 256, (ms >>> 24) % 256,
        (ms >>> 16) % 256, (ms >>> 8) % 256, ms % 256,
        stampVersion (r.getD 0 0), r.getD 1 0, stampVariant (r.getD 2 0)] ++
        r.drop 3))

/-- Source method `MarshalText`: the canonical string itself. -/
def MarshalText (u : List Char) : List Char := u

/-- Source method `UnmarshalText` on receiver value `cur`: the receiver is
assigned only when `FromString` succeeds. -/
def UnmarshalText (cur text : List Char) : Option (List Char) × List Char :=
  match FromString text with
  | (_, some e) => (some e, cur)
  | (uid, none) => (none, uid)

/-- Source method `MarshalBinary` delegates to `MarshalText`. -/
def MarshalBinary (u : List Char) : List Char := MarshalText u

/-- Source method `UnmarshalBinary` delegates to `UnmarshalText`. -/
def UnmarshalBinary (cur data : List Char) : Option (List Char) × List Char :=
  UnmarshalText cur data

/-- One character of `strconv.Quote` output.  UUID strings consist of
printable ASCII without quotes or backslashes, for which no escaping
happens; other characters are escaped (the exact escape spelling is not
load-bearing for any claim and is abbreviated). -/
def quoteChar (c : Char) : List Char :=
  if c = '"' ∨ c = '\\' then ['\\', c]
  else if inRange 32 126 c then [c]
  else ['\\', 'x']

/-- Escaping pass of `strconv.Quote`. -/
def escapeChars : List Char → List Char
  | [] => []
  | c :: s => quoteChar c ++ escapeChars s

/-- Embedding of `strconv.Quote`: wrap in double quotes, escaping as
needed. -/
def goQuote (s : List Char) : List Char :=
  '"' :: escapeChars s ++ ['"']

/-- The backquote character (code 96), quote of Go raw string literals. -/
def backquote : Char := Char.ofNat 96

/-- A character that stands for itself inside a quoted literal with quote
character `q`: printable ASCII, not the quote, not a backslash. -/
def simpleChar (q c : Char) : Bool :=
  c != q && c != '\\' && inRange 32 126 c

/-- Embedding of `strconv.Unquote`: it accepts double-quoted, single-quoted
and backquoted Go literals.  Escape sequences inside quoted literals are
conservatively rejected here; the library's own encodings never produce
them, and every input this model accepts is accepted by `strconv.Unquote`
with the same result. -/
def goUnquote (s : List Char) : Option (List Char) :=
  match s with
  | [] => none
  | q :: rest =>
    if q = '"' then
      match rest.getLast? with
      | some l =>
        if l = '"' ∧ (rest.dropLast).all (simpleChar '"') then
          some rest.dropLast
        else none
      | none => none
    else if q = '\'' then
      match rest with
      | [c, q2] => if q2 = '\'' ∧ simpleChar '\'' c then some [c] else none
      | _ => none
    else if q = backquote then
      match rest.getLast? with
      | some l =>
        if l = backquote ∧
            (rest.dropLast).all (fun c => c != backquote && c.toNat != 13) then
          some rest.dropLast
        else none
      | none => none
    else none

/-- Source method `MarshalJSON`: `strconv.Quote(u.String())`. -/
def MarshalJSON (u : List Char) : List Char :=
  goQuote u

/-- Source method `UnmarshalJSON` on receiver value `cur`: literal `null`
returns immediately without touching the receiver; otherwise the input is
unquoted and parsed, the receiver being assigned only on success. -/
def UnmarshalJSON (cur b : List Char) : Option (List Char) × List Char :=
  if b = ("null").data then (none, cur)
  else
    match goUnquote b with
    | none =>
      (some (("invalid json value for uuid (must be string or null): ").data ++ b),
        cur)
    | some str =>
      match FromString str with
      | (_, some e) => (some e, cur)
      | (uid, none) => (none, uid)

/-- Error message `fmt.Errorf("uuid: incorrect UUID format %s", u)`. -/
def fmtIncorrect (u : List Char) : List Char :=
  ("uuid: incorrect UUID format ").data ++ u

/-- The group-decoding loop of `Value`: for each byte-group size, skip the
dash (except before the first group), hex-decode that many characters, and
continue with the rest.  Go's out-of-range slice panics are `GoResult.panic`;
a hex error aborts with an error. -/
def valueLoop : List Nat → List Char → Bool → GoResult (List Nat)
  | [], _, _ => .ok []
  | g :: gs, src0, isFirst =>
    match (if isFirst then some src0 else goSliceFrom src0 1) with
    | none => .panic
    | some src =>
      match goSlice src 0 g with
      | none => .panic
      | some chunk =>
        match hexDecode chunk with
        | none => .err (("encoding/hex: invalid byte").data)
        | some bs =>
          match goSliceFrom src g with
          | none => .panic
          | some rest =>
            match valueLoop gs rest false with
            | .ok bss => .ok (bs ++ bss)
            | .err e => .err e
            | .panic => .panic

/-- Source method `Value`: nil maps to SQL NULL; otherwise the four dash
positions are checked (with Go's short-circuit `||`, each index evaluated
only if the previous ones were dashes), then the five hex groups are decoded
into 16 bytes.  `byteGroups = [8, 4, 4, 4, 12]`. -/
def Value (u : List Char) : GoResult (Option (List Nat)) :=
  if u = [] then .ok none
  else
    match goIndex u 8 with
    | none => .panic
    | some c8 =>
      if c8 ≠ '-' then .err (fmtIncorrect u)
      else
        match goIndex u 13 with
        | none => .panic
        | some c13 =>
          if c13 ≠ '-' then .err (fmtIncorrect u)
          else
            match goIndex u 18 with
            | none => .panic
            | some c18 =>
              if c18 ≠ '-' then .err (fmtIncorrect u)
              else
                match goIndex u 23 with
                | none => .panic
                | some c23 =>
                  if c23 ≠ '-' then .err (fmtIncorrect u)
                  else
                    match valueLoop [8, 4, 4, 4, 12] u true with
                    | .ok ba => .ok (some ba)
                    | .err e => .err e
                    | .panic => .panic

/-- Input of `Scan`, a `driver.Value`: SQL NULL, a byte slice, or a value of
any other type (carrying the Go spelling of that type, as `%T` prints it). -/
inductive ScanSrc where
  | null : ScanSrc
  | bytes : List Nat → ScanSrc
  | other : List Char → ScanSrc
  deriving Repr, DecidableEq

/-- Error message `fmt.Errorf("uuid: cannot convert %T to UUID", src)`. -/
def fmtCannotConvert (typeName : List Char) : List Char :=
  ("uuid: cannot convert ").data ++ typeName ++ (" to UUID").data

/-- Source method `Scan` on receiver value `cur`: NULL sets the receiver to
nil; a byte slice of length 16 is hex-encoded to canonical form and parsed
with `FromString`, whose returned value is assigned to the receiver even
when it also returns an error; anything else (including byte slices of
other lengths, whose `%T` is `[]uint8`) yields the cannot-convert error and
leaves the receiver alone. -/
def Scan (cur : List Char) (src : ScanSrc) : Option (List Char) × List Char :=
  match src with
  | .null => (none, [])
  | .bytes b =>
    if b.length = 16 then
      let p := FromString (encodeBytes b)
      (p.2, p.1)
    else (some (fmtCannotConvert (("[]uint8").data)), cur)
  | .other typeName => (some (fmtCannotConvert typeName), cur)

/-- Lowercase hex digit: `0-9` or `a-f`.  Canonical UUID strings consist of
these (plus dashes); this predicate expresses the "lowercase" half of
canonical validity. -/
def isLowerHexChar (c : Char) : Bool :=
  inRange 48 57 c || inRange 97 102 c

lemma inRange_iff {lo hi : Nat} {c : Char} :
    inRange lo hi c = true ↔ lo ≤ c.toNat ∧ c.toNat ≤ hi := by
  simp [inRange]

lemma fromHexChar_isSome (c : Char) : (fromHexChar c).isSome = isHexChar c := by
  unfold fromHexChar isHexChar
  by_cases h1 : inRange 48 57 c = true <;> by_cases h2 : inRange 97 102 c = true <;>
    by_cases h3 : inRange 65 70 c = true <;> simp [h1, h2, h3]

lemma fromHexChar_lt {c : Char} {v : Nat} (h : fromHexChar c = some v) :
    v < 16 := by
  unfold fromHexChar at h
  split_ifs at h with h1 h2 h3
  · rw [inRange_iff] at h1; injection h with h; omega
  · rw [inRange_iff] at h2; injection h with h; omega
  · rw [inRange_iff] at h3; injection h with h; omega

lemma fromHexChar_hextable : ∀ n, n < 16 → fromHexChar (hextable.getD n ' ') = some n := by
  decide

lemma hextable_getD (n : Nat) (h : n < 16) :
    hextable.getD n ' ' = Char.ofNat (if n < 10 then 48 + n else 87 + n) := by
  interval_cases n <;> rfl

lemma hextable_lowerHex : ∀ n, n < 16 → isLowerHexChar (hextable.getD n ' ') = true := by
  decide

lemma hexDigit_fromHexChar {c : Char} {v : Nat} (hc : isLowerHexChar c = true)
    (h : fromHexChar c = some v) : hextable.getD v ' ' = c := by
  have hv : v < 16 := fromHexChar_lt h
  rw [hextable_getD v hv]
  unfold isLowerHexChar at hc
  rw [Bool.or_eq_true, inRange_iff, inRange_iff] at hc
  unfold fromHexChar at h
  split_ifs at h with h1 h2 h3
  · rw [inRange_iff] at h1
    injection h with h; subst h
    rw [if_pos (by omega)]
    rw [show 48 + (c.toNat - 48) = c.toNat by omega, Char.ofNat_toNat]
  · rw [inRange_iff] at h2
    injection h with h; subst h
    rw [if_neg (by omega)]
    rw [show 87 + (c.toNat - 97 + 10) = c.toNat by omega, Char.ofNat_toNat]
  · rw [inRange_iff] at h3
    rcases hc with hc | hc
    · exact absurd (inRange_iff.mpr hc) h1
    · exact absurd (inRange_iff.mpr hc) h2

lemma isHexChar_ne_dash {c : Char} (h : isHexChar c = true) : c ≠ '-' := by
  unfold isHexChar at h
  rw [Bool.or_eq_true, Bool.or_eq_true, inRange_iff, inRange_iff, inRange_iff] at h
  intro hc; subst hc
  revert h; decide

lemma hexDecode_cons {c1 c2 : Char} {rest : List Char} {bs : List Nat} :
    hexDecode (c1 :: c2 :: rest) = some bs ↔
    ∃ v1 v2 bs', fromHexChar c1 = some v1 ∧ fromHexChar c2 = some v2 ∧
      hexDecode rest = some bs' ∧ bs = (v1 * 16 + v2) :: bs' := by
  simp only [hexDecode, Option.bind_eq_some, Option.map_eq_some']
  constructor
  · rintro ⟨v1, h1, v2, h2, bs', h3, rfl⟩
    exact ⟨v1, v2, bs', h1, h2, h3, rfl⟩
  · rintro ⟨v1, v2, bs', h1, h2, h3, rfl⟩
    exact ⟨v1, h1, v2, h2, bs', h3, rfl⟩

theorem hexDecode_append : ∀ (xs : List Char) {bs : List Nat},
    hexDecode xs = some bs → ∀ ys,
    hexDecode (xs ++ ys) = (hexDecode ys).map (bs ++ ·)
  | [], bs, h, ys => by
    simp only [hexDecode, Option.some.injEq] at h
    subst h
    cases hy : hexDecode ys <;> simp [hy]
  | [_], bs, h, _ => by simp [hexDecode] at h
  | c1 :: c2 :: rest, bs, h, ys => by
    obtain ⟨v1, v2, bs', h1, h2, h3, rfl⟩ := hexDecode_cons.mp h
    have ih := hexDecode_append rest h3 ys
    cases hy : hexDecode ys with
    | none => simp [hexDecode, h1, h2, ih, hy]
    | some l => simp [hexDecode, h1, h2, ih, hy, List.append_assoc]

theorem hexDecode_length : ∀ (xs : List Char) {bs : List Nat},
    hexDecode xs = some bs → 2 * bs.length = xs.length
  | [], bs, h => by
    simp only [hexDecode, Option.some.injEq] at h; subst h; rfl
  | [_], bs, h => by simp [hexDecode] at h
  | c1 :: c2 :: rest, bs, h => by
    obtain ⟨v1, v2, bs', _, _, h3, rfl⟩ := hexDecode_cons.mp h
    have ih := hexDecode_length rest h3
    simp only [List.length_cons]
    omega

theorem hexDecode_lt : ∀ (xs : List Char) {bs : List Nat},
    hexDecode xs = some bs → ∀ b ∈ bs, b < 256
  | [], bs, h => by
    simp only [hexDecode, Option.some.injEq] at h; subst h; simp
  | [_], bs, h => by simp [hexDecode] at h
  | c1 :: c2 :: rest, bs, h => by
    obtain ⟨v1, v2, bs', h1, h2, h3, rfl⟩ := hexDecode_cons.mp h
    intro b hb
    rcases List.mem_cons.mp hb with hb | hb
    · subst hb
      have w1 := fromHexChar_lt h1
      have w2 := fromHexChar_lt h2
      omega
    · exact hexDecode_lt rest h3 b hb

theorem hexDecode_all_hex : ∀ (xs : List Char) {bs : List Nat},
    hexDecode xs = some bs → ∀ c ∈ xs, isHexChar c = true
  | [], _, _ => by simp
  | [_], bs, h => by simp [hexDecode] at h
  | c1 :: c2 :: rest, bs, h => by
    obtain ⟨v1, v2, bs', h1, h2, h3, rfl⟩ := hexDecode_cons.mp h
    intro c hc
    rcases List.mem_cons.mp hc with hc | hc
    · subst hc
      have hs := fromHexChar_isSome c
      rw [h1] at hs; simpa using hs.symm
    rcases List.mem_cons.mp hc with hc | hc
    · subst hc
      have hs := fromHexChar_isSome c
      rw [h2] at hs; simpa using hs.symm
    · exact hexDecode_all_hex rest h3 c hc

theorem hexDecode_ok : ∀ (xs : List Char), (∀ c ∈ xs, isHexChar c = true) →
    xs.length % 2 = 0 → ∃ bs, hexDecode xs = some bs
  | [], _, _ => ⟨[], rfl⟩
  | [_], _, hlen => by simp at hlen
  | c1 :: c2 :: rest, hhex, hlen => by
    have h1 : (fromHexChar c1).isSome := by
      rw [fromHexChar_isSome]; exact hhex c1 (by simp)
    have h2 : (fromHexChar c2).isSome := by
      rw [fromHexChar_isSome]; exact hhex c2 (by simp)
    obtain ⟨v1, hv1⟩ := Option.isSome_iff_exists.mp h1
    obtain ⟨v2, hv2⟩ := Option.isSome_iff_exists.mp h2
    obtain ⟨bs, hbs⟩ := hexDecode_ok rest
      (fun c hc => hhex c (by simp [hc]))
      (by simp only [List.length_cons] at hlen; omega)
    exact ⟨(v1 * 16 + v2) :: bs,
      hexDecode_cons.mpr ⟨v1, v2, bs, hv1, hv2, hbs, rfl⟩⟩

theorem hexEnc_append (xs ys : List Nat) :
    hexEnc (xs ++ ys) = hexEnc xs ++ hexEnc ys := by
  induction xs with
  | nil => rfl
  | cons b bs ih => simp [hexEnc, ih]

theorem hexEnc_length (bs : List Nat) : (hexEnc bs).length = 2 * bs.length := by
  induction bs with
  | nil => rfl
  | cons b rest ih => simp [hexEnc, hexEncByte, ih]; omega

/-- Decoding inverts encoding on genuine bytes. -/
theorem hexDecode_hexEnc (bs : List Nat) (h : ∀ b ∈ bs, b < 256) :
    hexDecode (hexEnc bs) = some bs := by
  induction bs with
  | nil => rfl
  | cons b rest ih =>
    have hb : b < 256 := h b (by simp)
    have hhi : b / 16 < 16 := by omega
    have hlo : b % 16 < 16 := by omega
    have e1 := fromHexChar_hextable (b / 16) hhi
    have e2 := fromHexChar_hextable (b % 16) hlo
    have ihr := ih (fun x hx => h x (by simp [hx]))
    simp only [hexEnc, hexEncByte, List.cons_append, List.nil_append]
    exact hexDecode_cons.mpr ⟨b / 16, b % 16, rest, e1, e2, ihr,
      by rw [show b / 16 * 16 + b % 16 = b from by omega]⟩

/-- Encoding inverts decoding on lowercase hex strings. -/
theorem hexEnc_hexDecode : ∀ (xs : List Char) {bs : List Nat},
    hexDecode xs = some bs → (∀ c ∈ xs, isLowerHexChar c = true) →
    hexEnc bs = xs
  | [], bs, h, _ => by
    simp only [hexDecode, Option.some.injEq] at h; subst h; rfl
  | [_], bs, h, _ => by simp [hexDecode] at h
  | c1 :: c2 :: rest, bs, h, hlow => by
    obtain ⟨v1, v2, bs', h1, h2, h3, rfl⟩ := hexDecode_cons.mp h
    have hv1 := fromHexChar_lt h1
    have hv2 := fromHexChar_lt h2
    have d1 : (v1 * 16 + v2) / 16 = v1 := by omega
    have d2 : (v1 * 16 + v2) % 16 = v2 := by omega
    simp only [hexEnc, hexEncByte, d1, d2, List.cons_append, List.nil_append]
    rw [hexDigit_fromHexChar (hlow c1 (by simp)) h1,
      hexDigit_fromHexChar (hlow c2 (by simp)) h2,
      hexEnc_hexDecode rest h3 (fun c hc => hlow c (by simp [hc]))]

theorem natToBytesBE_length : ∀ (k n : Nat), (natToBytesBE k n).length = k := by
  intro k
  induction k with
  | zero => intro n; rfl
  | succ k ih => intro n; simp [natToBytesBE, ih]

theorem natToBytesBE_mod : ∀ (k n : Nat),
    natToBytesBE k (n % 256 ^ k) = natToBytesBE k n := by
  intro k
  induction k with
  | zero => intro n; rfl
  | succ k ih =>
    intro n
    simp only [natToBytesBE]
    have h1 : n % 256 ^ (k + 1) / 256 = n / 256 % 256 ^ k := by
      rw [pow_succ, Nat.mul_comm, Nat.mod_mul_right_div_self]
    have h2 : n % 256 ^ (k + 1) % 256 = n % 256 := by
      apply Nat.mod_mod_of_dvd
      exact dvd_pow_self 256 (Nat.succ_ne_zero k)
    rw [h1, h2, ih]

theorem natToBytesBE_split : ∀ (b a n : Nat),
    natToBytesBE (a + b) n = natToBytesBE a (n / 256 ^ b) ++ natToBytesBE b n := by
  intro b
  induction b with
  | zero => intro a n; simp [natToBytesBE]
  | succ b ih =>
    intro a n
    have : a + (b + 1) = (a + b) + 1 := by omega
    rw [this]
    simp only [natToBytesBE]
    rw [ih a (n / 256)]
    rw [Nat.div_div_eq_div_mul, ← pow_succ']
    simp [List.append_assoc]

theorem minBytesAux_eq : ∀ (f n : Nat), n < 256 ^ f →
    ∃ L, n < 256 ^ L ∧ (n = 0 → L = 0) ∧ (n ≠ 0 → 256 ^ (L - 1) ≤ n ∧ 1 ≤ L) ∧
      minBytesAux f n = natToBytesBE L n := by
  intro f
  induction f with
  | zero =>
    intro n hn
    simp only [pow_zero, Nat.lt_one_iff] at hn
    subst hn
    exact ⟨0, by simp, fun _ => rfl, fun h => absurd rfl h, rfl⟩
  | succ f ih =>
    intro n hn
    by_cases h0 : n = 0
    · subst h0
      exact ⟨0, by simp, fun _ => rfl, fun h => absurd rfl h,
        by simp [minBytesAux, natToBytesBE]⟩
    · have hdiv : n / 256 < 256 ^ f := by
        rw [Nat.div_lt_iff_lt_mul (by norm_num)]
        calc n < 256 ^ (f + 1) := hn
        _ = 256 ^ f * 256 := by rw [pow_succ]
      obtain ⟨L, hlt, hz, hnz, heq⟩ := ih (n / 256) hdiv
      refine ⟨L + 1, ?_, fun hh => absurd hh h0, fun _ => ⟨?_, by omega⟩, ?_⟩
      · have : n / 256 + 1 ≤ 256 ^ L := hlt
        have : n < 256 * (n / 256 + 1) := by omega
        calc n < 256 * (n / 256 + 1) := this
        _ ≤ 256 * 256 ^ L := by omega
        _ = 256 ^ (L + 1) := by rw [pow_succ, Nat.mul_comm]
      · by_cases hq : n / 256 = 0
        · have : L = 0 := hz hq
          subst this
          simp only [Nat.add_sub_cancel, pow_zero]
          omega
        · obtain ⟨hlow, hL1⟩ := hnz hq
          have : 256 ^ (L - 1) * 256 ≤ n / 256 * 256 := by
            exact Nat.mul_le_mul_right 256 hlow
          have h256 : 256 ^ (L - 1) * 256 = 256 ^ L := by
            rw [← pow_succ]
            congr 1
            omega
          have hn2 : n / 256 * 256 ≤ n := by
            have := Nat.div_mul_le_self n 256
            omega
          simp only [Nat.add_sub_cancel]
          omega
      · simp only [minBytesAux, if_neg h0, heq, natToBytesBE]

theorem bigIntBytes_cut {n : Nat} (h : 256 ^ 13 ≤ n) :
    (if (bigIntBytes n).length > 14 then
      (bigIntBytes n).drop ((bigIntBytes n).length - 14)
    else bigIntBytes n) = natToBytesBE 14 n := by
  have hn0 : n ≠ 0 := by positivity
  obtain ⟨L, hlt, _, hnz, heq⟩ := minBytesAux_eq n n (Nat.lt_pow_self (by norm_num) n)
  obtain ⟨hlow, hL1⟩ := hnz hn0
  have hL14 : 14 ≤ L := by
    by_contra hc
    push_neg at hc
    have : 256 ^ L ≤ 256 ^ 13 := Nat.pow_le_pow_right (by norm_num) (by omega)
    omega
  have hlen : (bigIntBytes n).length = L := by
    rw [show bigIntBytes n = minBytesAux n n from rfl, heq, natToBytesBE_length]
  rcases Nat.eq_or_lt_of_le hL14 with hL | hL
  · rw [if_neg (by omega)]
    rw [show bigIntBytes n = minBytesAux n n from rfl, heq, ← hL]
  · rw [if_pos (by omega), hlen]
    rw [show bigIntBytes n = minBytesAux n n from rfl, heq]
    rw [show L = (L - 14) + 14 from by omega, natToBytesBE_split]
    rw [show L - 14 + 14 - 14 = L - 14 from by omega]
    rw [List.drop_left' (natToBytesBE_length _ _)]

theorem consume_eq_some {p : Char → Bool} : ∀ (n : Nat) (s r : List Char),
    consume p n s = some r →
    ∃ pre, s = pre ++ r ∧ pre.length = n ∧ ∀ c ∈ pre, p c = true := by
  intro n
  induction n with
  | zero =>
    intro s r h
    simp only [consume, Option.some.injEq] at h
    exact ⟨[], by simp [h], rfl, by simp⟩
  | succ n ih =>
    intro s r h
    cases s with
    | nil => simp [consume] at h
    | cons c s =>
      simp only [consume] at h
      split_ifs at h with hp
      obtain ⟨pre, hs, hlen, hall⟩ := ih s r h
      exact ⟨c :: pre, by simp [hs], by simp [hlen],
        fun d hd => by
          rcases List.mem_cons.mp hd with hd | hd
          · subst hd; exact hp
          · exact hall d hd⟩

theorem consumeChar_eq_some {c : Char} {s r : List Char}
    (h : consumeChar c s = some r) : s = c :: r := by
  cases s with
  | nil => simp [consumeChar] at h
  | cons d s =>
    simp only [consumeChar] at h
    split_ifs at h with hd
    simp only [beq_iff_eq] at hd
    simp only [Option.some.injEq] at h
    rw [hd, h]

/-- Structure of a regex-valid canonical string: five hex groups, with the
version and variant characters made explicit. -/
def ValidShape (s : List Char) (g1 g2 : List Char) (v x1 x2 x3 w y1 y2 y3 : Char)
    (g5 : List Char) : Prop :=
  s = g1 ++ ('-' :: (g2 ++ ('-' :: v :: x1 :: x2 :: x3 :: '-' ::
    w :: y1 :: y2 :: y3 :: '-' :: g5))) ∧
  g1.length = 8 ∧ g2.length = 4 ∧ g5.length = 12 ∧
  (∀ c ∈ g1, isHexChar c = true) ∧ (∀ c ∈ g2, isHexChar c = true) ∧
  (∀ c ∈ g5, isHexChar c = true) ∧
  isVersionChar v = true ∧ isHexChar x1 = true ∧ isHexChar x2 = true ∧
  isHexChar x3 = true ∧ isVariantChar w = true ∧ isHexChar y1 = true ∧
  isHexChar y2 = true ∧ isHexChar y3 = true

theorem uuidRegexMatch_shape {s : List Char} (h : uuidRegexMatch s = true) :
    ∃ g1 g2 v x1 x2 x3 w y1 y2 y3 g5,
      ValidShape s g1 g2 v x1 x2 x3 w y1 y2 y3 g5 := by
  unfold uuidRegexMatch at h
  rw [beq_iff_eq] at h
  simp only [Option.bind_eq_bind, Option.pure_def] at h
  rw [Option.bind_eq_some] at h; obtain ⟨s1, e1, h⟩ := h
  rw [Option.bind_eq_some] at h; obtain ⟨s2, e2, h⟩ := h
  rw [Option.bind_eq_some] at h; obtain ⟨s3, e3, h⟩ := h
  rw [Option.bind_eq_some] at h; obtain ⟨s4, e4, h⟩ := h
  rw [Option.bind_eq_some] at h; obtain ⟨s5, e5, h⟩ := h
  rw [Option.bind_eq_some] at h; obtain ⟨s6, e6, h⟩ := h
  rw [Option.bind_eq_some] at h; obtain ⟨s7, e7, h⟩ := h
  rw [Option.bind_eq_some] at h; obtain ⟨s8, e8, h⟩ := h
  rw [Option.bind_eq_some] at h; obtain ⟨s9, e9, h⟩ := h
  rw [Option.bind_eq_some] at h; obtain ⟨s10, e10, h⟩ := h
  rw [Option.bind_eq_some] at h; obtain ⟨s11, e11, h⟩ := h
  simp only [Option.some.injEq] at h
  subst h
  obtain ⟨g1, hs, hg1len, hg1hex⟩ := consume_eq_some 8 s s1 e1
  have hs1 := consumeChar_eq_some e2
  obtain ⟨g2, hs2, hg2len, hg2hex⟩ := consume_eq_some 4 s2 s3 e3
  have hs3 := consumeChar_eq_some e4
  obtain ⟨pv, hs4, hpvlen, hpv⟩ := consume_eq_some 1 s4 s5 e5
  obtain ⟨px, hs5, hpxlen, hpx⟩ := consume_eq_some 3 s5 s6 e6
  have hs6 := consumeChar_eq_some e7
  obtain ⟨pw, hs7, hpwlen, hpw⟩ := consume_eq_some 1 s7 s8 e8
  obtain ⟨py, hs8, hpylen, hpy⟩ := consume_eq_some 3 s8 s9 e9
  have hs9 := consumeChar_eq_some e10
  obtain ⟨g5, hs10, hg5len, hg5hex⟩ := consume_eq_some 12 s10 [] e11
  obtain ⟨v, rfl⟩ := List.length_eq_one.mp hpvlen
  obtain ⟨w, rfl⟩ := List.length_eq_one.mp hpwlen
  obtain ⟨x1, x2, x3, rfl⟩ : ∃ x1 x2 x3, px = [x1, x2, x3] := by
    rcases px with _ | ⟨x1, _ | ⟨x2, _ | ⟨x3, _ | _⟩⟩⟩ <;> simp_all
  obtain ⟨y1, y2, y3, rfl⟩ : ∃ y1 y2 y3, py = [y1, y2, y3] := by
    rcases py with _ | ⟨y1, _ | ⟨y2, _ | ⟨y3, _ | _⟩⟩⟩ <;> simp_all
  refine ⟨g1, g2, v, x1, x2, x3, w, y1, y2, y3, g5, ?_,
    hg1len, hg2len, ?_, hg1hex, hg2hex, ?_,
    hpv v (by simp), hpx x1 (by simp), hpx x2 (by simp), hpx x3 (by simp),
    hpw w (by simp), hpy y1 (by simp), hpy y2 (by simp), hpy y3 (by simp)⟩
  · subst hs hs1 hs2 hs3 hs4 hs5 hs6 hs7 hs8 hs9 hs10
    simp [List.append_assoc]
  · subst hs10; simpa using hg5len
  · subst hs10; intro c hc; exact hg5hex c (by simpa using hc)

lemma drop_append_cons {l₁ l₂ : List α} {c : α} {n : Nat} (h : l₁.length = n) :
    (l₁ ++ c :: l₂).drop (n + 1) = l₂ := by
  rw [show l₁ ++ c :: l₂ = (l₁ ++ [c]) ++ l₂ from by simp,
    List.drop_left' (by simp [h])]

lemma isVersionChar_isHexChar {c : Char} (h : isVersionChar c = true) :
    isHexChar c = true := by
  unfold isVersionChar at h
  rw [inRange_iff] at h
  unfold isHexChar
  rw [Bool.or_eq_true, Bool.or_eq_true, inRange_iff]
  exact Or.inl (Or.inl (by omega))

lemma isVariantChar_isHexChar {c : Char} (h : isVariantChar c = true) :
    isHexChar c = true := by
  unfold isVariantChar at h
  simp only [Bool.or_eq_true, beq_iff_eq] at h
  rcases h with ((((rfl | rfl) | rfl) | rfl) | rfl) | rfl <;> decide

lemma version_val {v : Char} {vv : Nat} (hv : isVersionChar v = true)
    (h : fromHexChar v = some vv) : 1 ≤ vv ∧ vv ≤ 5 := by
  unfold isVersionChar at hv
  rw [inRange_iff] at hv
  unfold fromHexChar at h
  rw [if_pos (inRange_iff.mpr (by omega))] at h
  injection h with h
  omega

lemma variant_val {w : Char} {wv : Nat} (hw : isVariantChar w = true)
    (h : fromHexChar w = some wv) : 8 ≤ wv ∧ wv < 12 := by
  unfold isVariantChar at hw
  simp only [Bool.or_eq_true, beq_iff_eq] at hw
  rcases hw with ((((rfl | rfl) | rfl) | rfl) | rfl) | rfl
  · rw [show fromHexChar '8' = some 8 from by decide] at h
    injection h with h; omega
  · rw [show fromHexChar '9' = some 9 from by decide] at h
    injection h with h; omega
  · rw [show fromHexChar 'a' = some 10 from by decide] at h
    injection h with h; omega
  · rw [show fromHexChar 'b' = some 11 from by decide] at h
    injection h with h; omega
  · rw [show fromHexChar 'A' = some 10 from by decide] at h
    injection h with h; omega
  · rw [show fromHexChar 'B' = some 11 from by decide] at h
    injection h with h; omega

theorem ValidShape.len {s g1 g2 v x1 x2 x3 w y1 y2 y3 g5}
    (h : ValidShape s g1 g2 v x1 x2 x3 w y1 y2 y3 g5) : s.length = 36 := by
  obtain ⟨hs, hg1, hg2, hg5, -⟩ := h
  subst hs
  simp [hg1, hg2, hg5]

theorem ValidShape.ne_nil {s g1 g2 v x1 x2 x3 w y1 y2 y3 g5}
    (h : ValidShape s g1 g2 v x1 x2 x3 w y1 y2 y3 g5) : s ≠ [] := by
  intro he
  have := h.len
  rw [he] at this
  simp at this

/-- The dash-free character sequence of a shaped canonical string. -/
def hashOf (g1 g2 : List Char) (v x1 x2 x3 w y1 y2 y3 : Char)
    (g5 : List Char) : List Char :=
  g1 ++ (g2 ++ (v :: x1 :: x2 :: x3 :: w :: y1 :: y2 :: y3 :: g5))

theorem ValidShape.hashLike {s g1 g2 v x1 x2 x3 w y1 y2 y3 g5}
    (h : ValidShape s g1 g2 v x1 x2 x3 w y1 y2 y3 g5) :
    HashLike s = some (hashOf g1 g2 v x1 x2 x3 w y1 y2 y3 g5) := by
  have hlen := h.len
  have hne := h.ne_nil
  obtain ⟨hs, hg1, hg2, hg5, -⟩ := h
  have t0 : s.take 8 = g1 := by rw [hs]; exact List.take_left' hg1
  have d9 : s.drop 9 =
      g2 ++ ('-' :: v :: x1 :: x2 :: x3 :: '-' :: w :: y1 :: y2 :: y3 :: '-' :: g5) := by
    rw [hs]; exact drop_append_cons hg1
  have d14 : s.drop 14 =
      v :: x1 :: x2 :: x3 :: '-' :: w :: y1 :: y2 :: y3 :: '-' :: g5 := by
    rw [show (14 : Nat) = 9 + 5 from rfl, ← List.drop_drop, d9]
    exact drop_append_cons hg2
  have d19 : s.drop 19 = w :: y1 :: y2 :: y3 :: '-' :: g5 := by
    rw [show (19 : Nat) = 14 + 5 from rfl, ← List.drop_drop, d14]
    simp
  have d24 : s.drop 24 = g5 := by
    rw [show (24 : Nat) = 19 + 5 from rfl, ← List.drop_drop, d19]
    simp
  have e1 : goSlice s 0 8 = some g1 := by
    rw [goSlice, if_pos (by omega)]
    simp [t0]
  have e2 : goSlice s 9 13 = some g2 := by
    rw [goSlice, if_pos (by omega), d9]
    rw [show (13 : Nat) - 9 = 4 from rfl, List.take_left' hg2]
  have e3 : goSlice s 14 18 = some [v, x1, x2, x3] := by
    rw [goSlice, if_pos (by omega), d14]
    rfl
  have e4 : goSlice s 19 23 = some [w, y1, y2, y3] := by
    rw [goSlice, if_pos (by omega), d19]
    rfl
  have e5 : goSliceFrom s 24 = some g5 := by
    rw [goSliceFrom, if_pos (by omega), d24]
  rw [HashLike, if_neg hne]
  simp [e1, e2, e3, e4, e5, hashOf, List.append_assoc]

/-- The byte list decoded from a shaped canonical string: four bytes from the
first group, two from the second, the four individually decoded bytes
(positions 6-9), and six from the last group. -/
def bytesOf (B1 B2 : List Nat) (b6 b7 b8 b9 : Nat) (B5 : List Nat) : List Nat :=
  B1 ++ (B2 ++ (b6 :: b7 :: b8 :: b9 :: B5))

theorem ValidShape.decode {s g1 g2 v x1 x2 x3 w y1 y2 y3 g5}
    (h : ValidShape s g1 g2 v x1 x2 x3 w y1 y2 y3 g5) :
    ∃ B1 B2 B5 vv xv1 xv2 xv3 wv yv1 yv2 yv3,
      hexDecode g1 = some B1 ∧ hexDecode g2 = some B2 ∧ hexDecode g5 = some B5 ∧
      fromHexChar v = some vv ∧ fromHexChar x1 = some xv1 ∧
      fromHexChar x2 = some xv2 ∧ fromHexChar x3 = some xv3 ∧
      fromHexChar w = some wv ∧ fromHexChar y1 = some yv1 ∧
      fromHexChar y2 = some yv2 ∧ fromHexChar y3 = some yv3 ∧
      B1.length = 4 ∧ B2.length = 2 ∧ B5.length = 6 ∧
      hexDecode (hashOf g1 g2 v x1 x2 x3 w y1 y2 y3 g5) =
        some (bytesOf B1 B2 (vv * 16 + xv1) (xv2 * 16 + xv3) (wv * 16 + yv1)
          (yv2 * 16 + yv3) B5) := by
  obtain ⟨hs, hg1, hg2, hg5, hx1, hx2, hx5, hv, hh1, hh2, hh3, hw, hk1, hk2, hk3⟩ := h
  obtain ⟨B1, hB1⟩ := hexDecode_ok g1 hx1 (by omega)
  obtain ⟨B2, hB2⟩ := hexDecode_ok g2 hx2 (by omega)
  obtain ⟨B5, hB5⟩ := hexDecode_ok g5 hx5 (by omega)
  have lB1 : B1.length = 4 := by have := hexDecode_length g1 hB1; omega
  have lB2 : B2.length = 2 := by have := hexDecode_length g2 hB2; omega
  have lB5 : B5.length = 6 := by have := hexDecode_length g5 hB5; omega
  have sv : (fromHexChar v).isSome := by
    rw [fromHexChar_isSome]; exact isVersionChar_isHexChar hv
  have sx1 : (fromHexChar x1).isSome := by rw [fromHexChar_isSome]; exact hh1
  have sx2 : (fromHexChar x2).isSome := by rw [fromHexChar_isSome]; exact hh2
  have sx3 : (fromHexChar x3).isSome := by rw [fromHexChar_isSome]; exact hh3
  have sw : (fromHexChar w).isSome := by
    rw [fromHexChar_isSome]; exact isVariantChar_isHexChar hw
  have sy1 : (fromHexChar y1).isSome := by rw [fromHexChar_isSome]; exact hk1
  have sy2 : (fromHexChar y2).isSome := by rw [fromHexChar_isSome]; exact hk2
  have sy3 : (fromHexChar y3).isSome := by rw [fromHexChar_isSome]; exact hk3
  obtain ⟨vv, hvv⟩ := Option.isSome_iff_exists.mp sv
  obtain ⟨xv1, hxv1⟩ := Option.isSome_iff_exists.mp sx1
  obtain ⟨xv2, hxv2⟩ := Option.isSome_iff_exists.mp sx2
  obtain ⟨xv3, hxv3⟩ := Option.isSome_iff_exists.mp sx3
  obtain ⟨wv, hwv⟩ := Option.isSome_iff_exists.mp sw
  obtain ⟨yv1, hyv1⟩ := Option.isSome_iff_exists.mp sy1
  obtain ⟨yv2, hyv2⟩ := Option.isSome_iff_exists.mp sy2
  obtain ⟨yv3, hyv3⟩ := Option.isSome_iff_exists.mp sy3
  have hT : hexDecode (v :: x1 :: x2 :: x3 :: w :: y1 :: y2 :: y3 :: g5) =
      some ((vv * 16 + xv1) :: (xv2 * 16 + xv3) :: (wv * 16 + yv1) ::
        (yv2 * 16 + yv3) :: B5) := by
    apply hexDecode_cons.mpr
    refine ⟨vv, xv1, _, hvv, hxv1, ?_, rfl⟩
    apply hexDecode_cons.mpr
    refine ⟨xv2, xv3, _, hxv2, hxv3, ?_, rfl⟩
    apply hexDecode_cons.mpr
    refine ⟨wv, yv1, _, hwv, hyv1, ?_, rfl⟩
    exact hexDecode_cons.mpr ⟨yv2, yv3, B5, hyv2, hyv3, hB5, rfl⟩
  refine ⟨B1, B2, B5, vv, xv1, xv2, xv3, wv, yv1, yv2, yv3,
    hB1, hB2, hB5, hvv, hxv1, hxv2, hxv3, hwv, hyv1, hyv2, hyv3,
    lB1, lB2, lB5, ?_⟩
  rw [hashOf, hexDecode_append g1 hB1, hexDecode_append g2 hB2, hT]
  rfl

lemma Char_toNat_ofNat {n : Nat} (h : n < 55296) : (Char.ofNat n).toNat = n := by
  rw [Char.ofNat, dif_pos (Or.inl (by omega))]
  simp [Char.ofNatAux, Char.toNat, UInt32.toNat, UInt32.ofNat']

lemma map_eq_self {f : α → α} : ∀ {l : List α}, l.map f = l → ∀ c ∈ l, f c = c := by
  intro l
  induction l with
  | nil => intro _ c hc; simp at hc
  | cons a l ih =>
    intro h c hc
    simp only [List.map_cons, List.cons.injEq] at h
    rcases List.mem_cons.mp hc with hc | hc
    · subst hc; exact h.1
    · exact ih h.2 c hc

lemma lowerHex_of_hex {c : Char} (hhex : isHexChar c = true)
    (hlow : charToLower c = c) : isLowerHexChar c = true := by
  unfold isHexChar at hhex
  rw [Bool.or_eq_true, Bool.or_eq_true, inRange_iff, inRange_iff, inRange_iff] at hhex
  unfold isLowerHexChar
  rw [Bool.or_eq_true, inRange_iff, inRange_iff]
  rcases hhex with (hd | hl) | hu
  · exact Or.inl hd
  · exact Or.inr hl
  · exfalso
    unfold charToLower at hlow
    rw [if_pos (by omega)] at hlow
    have : (Char.ofNat (c.toNat + 32)).toNat = c.toNat + 32 :=
      Char_toNat_ofNat (by omega)
    rw [hlow] at this
    omega

lemma and15 (x : Nat) : x &&& 15 = x % 16 := by
  have h := Nat.and_pow_two_sub_one_eq_mod x 4
  norm_num at h
  exact h

lemma and63 (x : Nat) : x &&& 63 = x % 64 := by
  have h := Nat.and_pow_two_sub_one_eq_mod x 6
  norm_num at h
  exact h

lemma or64 {x : Nat} (h : x < 64) : x ||| 64 = 64 + x := by
  have h2 : x < 2 ^ 6 := by norm_num; omega
  have h3 := Nat.mul_add_lt_is_or h2 1
  norm_num at h3
  rw [Nat.or_comm, ← h3]

lemma or128 {x : Nat} (h : x < 128) : x ||| 128 = 128 + x := by
  have h2 : x < 2 ^ 7 := by norm_num; omega
  have h3 := Nat.mul_add_lt_is_or h2 1
  norm_num at h3
  rw [Nat.or_comm, ← h3]

lemma stampVersion_eq (x : Nat) : stampVersion x = 64 + x % 16 := by
  unfold stampVersion
  rw [show ((4 : Nat) <<< 4) = 64 from rfl, show (0x0f : Nat) = 15 from rfl,
    and15, or64 (by omega)]

lemma stampVariant_eq (x : Nat) : stampVariant x = 128 + x % 64 := by
  unfold stampVariant
  rw [show ((0x02 : Nat) <<< 6) = 128 from rfl,
    show ((0xff : Nat) >>> 2) = 63 from rfl, and63, or128 (by omega)]

lemma xor_mod_two_pow (x y k : Nat) :
    (x ^^^ y) % 2 ^ k = x % 2 ^ k ^^^ y % 2 ^ k := by
  have h1 := Nat.and_pow_two_sub_one_eq_mod (x ^^^ y) k
  have h2 := Nat.and_pow_two_sub_one_eq_mod x k
  have h3 := Nat.and_pow_two_sub_one_eq_mod y k
  rw [← h1, ← h2, ← h3, Nat.and_xor_distrib_right]

lemma xor_mod16 (x y : Nat) : (x ^^^ y) % 16 = x % 16 ^^^ y % 16 := by
  have h := xor_mod_two_pow x y 4
  norm_num at h
  exact h

lemma xor_mod64 (x y : Nat) : (x ^^^ y) % 64 = x % 64 ^^^ y % 64 := by
  have h := xor_mod_two_pow x y 6
  norm_num at h
  exact h

lemma xor_lt_256 {x y : Nat} (hx : x < 256) (hy : y < 256) : x ^^^ y < 256 := by
  have h := xor_mod_two_pow x y 8
  norm_num at h
  rw [Nat.mod_eq_of_lt hx, Nat.mod_eq_of_lt hy] at h
  rw [← h]
  exact Nat.mod_lt _ (by norm_num)

lemma stampVersion_lt (x : Nat) : stampVersion x < 256 := by
  rw [stampVersion_eq]; omega

lemma stampVariant_lt (x : Nat) : stampVariant x < 256 := by
  rw [stampVariant_eq]; omega

lemma stampVersion_div (x : Nat) : stampVersion x / 16 = 4 := by
  rw [stampVersion_eq]; omega

lemma stampVariant_div (x : Nat) :
    8 ≤ stampVariant x / 16 ∧ stampVariant x / 16 < 12 := by
  rw [stampVariant_eq]; omega

lemma stampVersion_cancel {a b : Nat} (hb : b < 256) (h4 : b / 16 = 4) :
    stampVersion (stampVersion (a ^^^ b) ^^^ a) = b := by
  rw [stampVersion_eq, stampVersion_eq]
  have e1 : ((64 + (a ^^^ b) % 16) ^^^ a) % 16 = ((a ^^^ b) % 16 ^^^ a) % 16 := by
    rw [xor_mod16, xor_mod16 ((a ^^^ b) % 16) a]
    congr 1
    omega
  rw [e1, xor_mod16 ((a ^^^ b) % 16) a]
  have e2 : (a ^^^ b) % 16 % 16 = a % 16 ^^^ b % 16 := by
    rw [Nat.mod_mod_of_dvd _ (dvd_refl 16), xor_mod16]
  rw [e2, Nat.xor_comm (a % 16) (b % 16), Nat.xor_cancel_right]
  omega

lemma stampVariant_cancel {a b : Nat} (hb : b < 256) (h8 : 8 ≤ b / 16)
    (h12 : b / 16 < 12) :
    stampVariant (stampVariant (a ^^^ b) ^^^ a) = b := by
  rw [stampVariant_eq, stampVariant_eq]
  have e1 : ((128 + (a ^^^ b) % 64) ^^^ a) % 64 = ((a ^^^ b) % 64 ^^^ a) % 64 := by
    rw [xor_mod64, xor_mod64 ((a ^^^ b) % 64) a]
    congr 1
    omega
  rw [e1, xor_mod64 ((a ^^^ b) % 64) a]
  have e2 : (a ^^^ b) % 64 % 64 = a % 64 ^^^ b % 64 := by
    rw [Nat.mod_mod_of_dvd _ (dvd_refl 64), xor_mod64]
  rw [e2, Nat.xor_comm (a % 64) (b % 64), Nat.xor_cancel_right]
  omega

lemma xorArr_length (b1 b2 : List Nat) : (xorArr b1 b2).length = 16 := by
  unfold xorArr
  simp

lemma range16_map_getD (f : Nat → Nat) {i : Nat} (hi : i < 16) :
    ((List.range 16).map f).getD i 0 = f i := by
  have h : ((List.range 16).map f)[i]? = some (f i) := by
    rw [List.getElem?_map, List.getElem?_range hi]
    rfl
  simp [List.getD_eq_getElem?_getD, h]

lemma xorArr_getD {b1 b2 : List Nat} (h1 : b1.length = 16) {i : Nat}
    (hi : i < 16) :
    (xorArr b1 b2).getD i 0 =
      if i = 6 then stampVersion (b1.getD 6 0 ^^^ b2.getD 6 0)
      else if i = 8 then stampVariant (b1.getD 8 0 ^^^ b2.getD 8 0)
      else b1.getD i 0 ^^^ b2.getD i 0 := by
  unfold xorArr
  simp only []
  have hlen : ((List.range 16).map
      (fun i => if i < b1.length then b1.getD i 0 ^^^ b2.getD i 0 else 0)).length = 16 := by
    simp
  have base : ∀ j, j < 16 →
      ((List.range 16).map
        (fun i => if i < b1.length then b1.getD i 0 ^^^ b2.getD i 0 else 0)).getD j 0 =
      b1.getD j 0 ^^^ b2.getD j 0 := by
    intro j hj
    rw [range16_map_getD _ hj, if_pos (by omega)]
  by_cases hi8 : i = 8
  · subst hi8
    rw [List.getD_eq_getElem?_getD, List.getElem?_set_self (by simp [hlen])]
    simp only [Option.getD_some, if_neg (by omega : (8 : Nat) ≠ 6), if_pos rfl]
    rw [List.getD_eq_getElem?_getD, List.getElem?_set_ne (by omega), ←
      List.getD_eq_getElem?_getD, base 8 (by omega)]
    simp
  · rw [List.getD_eq_getElem?_getD, List.getElem?_set_ne (by omega), ←
      List.getD_eq_getElem?_getD]
    by_cases hi6 : i = 6
    · subst hi6
      rw [List.getD_eq_getElem?_getD, List.getElem?_set_self (by simp [hlen]),
        Option.getD_some, base 6 (by omega)]
      simp
    · rw [List.getD_eq_getElem?_getD, List.getElem?_set_ne (by omega), ←
        List.getD_eq_getElem?_getD, base i hi, if_neg hi6, if_neg hi8]

section BytesOfFacts

variable {B1 B2 B5 : List Nat} {b6 b7 b8 b9 : Nat}

lemma bytesOf_length (h1 : B1.length = 4) (h2 : B2.length = 2)
    (h5 : B5.length = 6) : (bytesOf B1 B2 b6 b7 b8 b9 B5).length = 16 := by
  simp [bytesOf, h1, h2, h5]

lemma bytesOf_take4 (h1 : B1.length = 4) :
    (bytesOf B1 B2 b6 b7 b8 b9 B5).take 4 = B1 :=
  List.take_left' h1

lemma bytesOf_drop4 (h1 : B1.length = 4) :
    (bytesOf B1 B2 b6 b7 b8 b9 B5).drop 4 = B2 ++ (b6 :: b7 :: b8 :: b9 :: B5) :=
  List.drop_left' h1

lemma bytesOf_drop6 (h1 : B1.length = 4) (h2 : B2.length = 2) :
    (bytesOf B1 B2 b6 b7 b8 b9 B5).drop 6 = b6 :: b7 :: b8 :: b9 :: B5 := by
  rw [show (6 : Nat) = 4 + 2 from rfl, ← List.drop_drop, bytesOf_drop4 h1,
    List.drop_left' h2]

lemma bytesOf_drop8 (h1 : B1.length = 4) (h2 : B2.length = 2) :
    (bytesOf B1 B2 b6 b7 b8 b9 B5).drop 8 = b8 :: b9 :: B5 := by
  rw [show (8 : Nat) = 6 + 2 from rfl, ← List.drop_drop, bytesOf_drop6 h1 h2]
  simp

lemma bytesOf_drop10 (h1 : B1.length = 4) (h2 : B2.length = 2) :
    (bytesOf B1 B2 b6 b7 b8 b9 B5).drop 10 = B5 := by
  rw [show (10 : Nat) = 8 + 2 from rfl, ← List.drop_drop, bytesOf_drop8 h1 h2]
  simp

lemma bytesOf_getD6 (h1 : B1.length = 4) (h2 : B2.length = 2)
    (h5 : B5.length = 6) : (bytesOf B1 B2 b6 b7 b8 b9 B5).getD 6 0 = b6 := by
  have hd : (bytesOf B1 B2 b6 b7 b8 b9 B5).drop 6 = b6 :: b7 :: b8 :: b9 :: B5 :=
    bytesOf_drop6 h1 h2
  have hlt : 6 < (bytesOf B1 B2 b6 b7 b8 b9 B5).length := by
    rw [bytesOf_length h1 h2 h5]; omega
  have := List.drop_eq_getElem_cons hlt
  rw [hd] at this
  injection this with h1 _
  simp [List.getD_eq_getElem?_getD, List.getElem?_eq_getElem hlt, ← h1]

lemma bytesOf_getD8 (h1 : B1.length = 4) (h2 : B2.length = 2)
    (h5 : B5.length = 6) : (bytesOf B1 B2 b6 b7 b8 b9 B5).getD 8 0 = b8 := by
  have hd : (bytesOf B1 B2 b6 b7 b8 b9 B5).drop 8 = b8 :: b9 :: B5 :=
    bytesOf_drop8 h1 h2
  have hlt : 8 < (bytesOf B1 B2 b6 b7 b8 b9 B5).length := by
    rw [bytesOf_length h1 h2 h5]; omega
  have := List.drop_eq_getElem_cons hlt
  rw [hd] at this
  injection this with h1 _
  simp [List.getD_eq_getElem?_getD, List.getElem?_eq_getElem hlt, ← h1]

end BytesOfFacts

lemma getD_lt {l : List Nat} (h : ∀ b ∈ l, b < 256) {i : Nat}
    (hi : i < l.length) : l.getD i 0 < 256 := by
  rw [List.getD_eq_getElem?_getD, List.getElem?_eq_getElem hi]
  exact h _ (List.getElem_mem hi)

/-- Computation of `HashLike` on any five-group dashed string. -/
lemma hashLike_five {s p1 p2 p3 p4 p5 : List Char}
    (hs : s = p1 ++ ('-' :: (p2 ++ ('-' :: (p3 ++ ('-' :: (p4 ++ ('-' :: p5))))))))
    (l1 : p1.length = 8) (l2 : p2.length = 4) (l3 : p3.length = 4)
    (l4 : p4.length = 4) :
    HashLike s = some (p1 ++ (p2 ++ (p3 ++ (p4 ++ p5)))) := by
  have hlen : s.length = 24 + p5.length := by
    subst hs; simp [l1, l2, l3, l4]; omega
  have hne : s ≠ [] := by
    intro he; rw [he] at hlen; simp at hlen; omega
  have t0 : s.take 8 = p1 := by rw [hs]; exact List.take_left' l1
  have d9 : s.drop 9 = p2 ++ ('-' :: (p3 ++ ('-' :: (p4 ++ ('-' :: p5))))) := by
    rw [hs]; exact drop_append_cons l1
  have d14 : s.drop 14 = p3 ++ ('-' :: (p4 ++ ('-' :: p5))) := by
    rw [show (14 : Nat) = 9 + 5 from rfl, ← List.drop_drop, d9]
    exact drop_append_cons l2
  have d19 : s.drop 19 = p4 ++ ('-' :: p5) := by
    rw [show (19 : Nat) = 14 + 5 from rfl, ← List.drop_drop, d14]
    exact drop_append_cons l3
  have d24 : s.drop 24 = p5 := by
    rw [show (24 : Nat) = 19 + 5 from rfl, ← List.drop_drop, d19]
    exact drop_append_cons l4
  have e1 : goSlice s 0 8 = some p1 := by
    rw [goSlice, if_pos (by omega)]
    simp [t0]
  have e2 : goSlice s 9 13 = some p2 := by
    rw [goSlice, if_pos (by omega), d9]
    rw [show (13 : Nat) - 9 = 4 from rfl, List.take_left' l2]
  have e3 : goSlice s 14 18 = some p3 := by
    rw [goSlice, if_pos (by omega), d14]
    rw [show (18 : Nat) - 14 = 4 from rfl, List.take_left' l3]
  have e4 : goSlice s 19 23 = some p4 := by
    rw [goSlice, if_pos (by omega), d19]
    rw [show (23 : Nat) - 19 = 4 from rfl, List.take_left' l4]
  have e5 : goSliceFrom s 24 = some p5 := by
    rw [goSliceFrom, if_pos (by omega), d24]
  rw [HashLike, if_neg hne]
  simp [e1, e2, e3, e4, e5, List.append_assoc]

/-- The canonical encoding of 16 bytes, viewed as its five dashed groups. -/
lemma encodeBytes_shape {bs : List Nat} :
    encodeBytes bs = hexEnc (bs.take 4) ++ ('-' :: (hexEnc ((bs.drop 4).take 2) ++
      ('-' :: (hexEnc ((bs.drop 6).take 2) ++ ('-' :: (hexEnc ((bs.drop 8).take 2) ++
      ('-' :: hexEnc (bs.drop 10)))))))) := by
  simp [encodeBytes, List.append_assoc]

lemma HashLike_encodeBytes {bs : List Nat} (h : bs.length = 16) :
    HashLike (encodeBytes bs) = some (hexEnc bs) := by
  have l1 : (hexEnc (bs.take 4)).length = 8 := by
    rw [hexEnc_length]; simp [h]
  have l2 : (hexEnc ((bs.drop 4).take 2)).length = 4 := by
    rw [hexEnc_length]; simp [h]
  have l3 : (hexEnc ((bs.drop 6).take 2)).length = 4 := by
    rw [hexEnc_length]; simp [h]
  have l4 : (hexEnc ((bs.drop 8).take 2)).length = 4 := by
    rw [hexEnc_length]; simp [h]
  rw [hashLike_five encodeBytes_shape l1 l2 l3 l4]
  congr 1
  rw [← hexEnc_append, ← hexEnc_append, ← hexEnc_append, ← hexEnc_append]
  congr 1
  have e6 : (bs.drop 4).drop 2 = bs.drop 6 := by rw [List.drop_drop]
  have e8 : (bs.drop 6).drop 2 = bs.drop 8 := by rw [List.drop_drop]
  have e10 : (bs.drop 8).drop 2 = bs.drop 10 := by rw [List.drop_drop]
  conv_rhs => rw [← List.take_append_drop 4 bs,
    ← List.take_append_drop 2 (bs.drop 4), e6,
    ← List.take_append_drop 2 (bs.drop 6), e8,
    ← List.take_append_drop 2 (bs.drop 8), e10]

lemma or_shift_step (a m : Nat) :
    (a % 2 ^ m) ||| ((a >>> m % 256) <<< m) = a % 2 ^ (m + 8) := by
  rw [Nat.shiftRight_eq_div_pow, Nat.shiftLeft_eq, Nat.or_comm]
  have hb : a % 2 ^ m < 2 ^ m := Nat.mod_lt _ (Nat.two_pow_pos m)
  have h := Nat.mul_add_lt_is_or hb (a / 2 ^ m % 256)
  rw [Nat.mul_comm (a / 2 ^ m % 256) (2 ^ m), ← h]
  rw [pow_add, show (2 : Nat) ^ 8 = 256 from rfl, Nat.mod_mul]
  omega

lemma ms_readback {ms : Nat} (h : ms < 2 ^ 48) :
    (ms % 256) ||| ((ms >>> 8 % 256) <<< 8) ||| ((ms >>> 16 % 256) <<< 16) |||
    ((ms >>> 24 % 256) <<< 24) ||| ((ms >>> 32 % 256) <<< 32) |||
    ((ms >>> 40 % 256) <<< 40) = ms := by
  rw [show ms % 256 = ms % 2 ^ 8 from by norm_num]
  rw [or_shift_step ms 8, or_shift_step ms 16, or_shift_step ms 24,
    or_shift_step ms 32, or_shift_step ms 40, Nat.mod_eq_of_lt h]

/-- Canonical form of a UUID value: it matches the validating regex and is
already lowercase (the normal form produced by this library). -/
def isCanonical (s : List Char) : Bool :=
  uuidRegexMatch s && toLower s == s

lemma isCanonical_elim {s : List Char} (h : isCanonical s = true) :
    uuidRegexMatch s = true ∧ ∀ c ∈ s, charToLower c = c := by
  unfold isCanonical at h
  rw [Bool.and_eq_true, beq_iff_eq] at h
  exact ⟨h.1, map_eq_self h.2⟩

lemma shape_lower {s g1 g2 v x1 x2 x3 w y1 y2 y3 g5}
    (hsh : ValidShape s g1 g2 v x1 x2 x3 w y1 y2 y3 g5)
    (hlow : ∀ c ∈ s, charToLower c = c) :
    (∀ c ∈ g1, isLowerHexChar c = true) ∧ (∀ c ∈ g2, isLowerHexChar c = true) ∧
    (∀ c ∈ g5, isLowerHexChar c = true) ∧ isLowerHexChar v = true ∧
    isLowerHexChar x1 = true ∧ isLowerHexChar x2 = true ∧
    isLowerHexChar x3 = true ∧ isLowerHexChar w = true ∧
    isLowerHexChar y1 = true ∧ isLowerHexChar y2 = true ∧
    isLowerHexChar y3 = true := by
  obtain ⟨hs, hg1, hg2, hg5, hx1, hx2, hx5, hv, hh1, hh2, hh3, hw, hk1, hk2, hk3⟩ := hsh
  have hmem : ∀ c, (c ∈ g1 ∨ c ∈ g2 ∨ c ∈ g5 ∨ c = v ∨ c = x1 ∨ c = x2 ∨
      c = x3 ∨ c = w ∨ c = y1 ∨ c = y2 ∨ c = y3) → c ∈ s := by
    intro c hc
    rw [hs]
    simp only [List.mem_append, List.mem_cons]
    tauto
  refine ⟨?_, ?_, ?_, ?_, ?_, ?_, ?_, ?_, ?_, ?_, ?_⟩
  · exact fun c hc => lowerHex_of_hex (hx1 c hc) (hlow c (hmem c (by tauto)))
  · exact fun c hc => lowerHex_of_hex (hx2 c hc) (hlow c (hmem c (by tauto)))
  · exact fun c hc => lowerHex_of_hex (hx5 c hc) (hlow c (hmem c (by tauto)))
  · exact lowerHex_of_hex (isVersionChar_isHexChar hv) (hlow v (hmem v (by tauto)))
  · exact lowerHex_of_hex hh1 (hlow x1 (hmem x1 (by tauto)))
  · exact lowerHex_of_hex hh2 (hlow x2 (hmem x2 (by tauto)))
  · exact lowerHex_of_hex hh3 (hlow x3 (hmem x3 (by tauto)))
  · exact lowerHex_of_hex (isVariantChar_isHexChar hw) (hlow w (hmem w (by tauto)))
  · exact lowerHex_of_hex hk1 (hlow y1 (hmem y1 (by tauto)))
  · exact lowerHex_of_hex hk2 (hlow y2 (hmem y2 (by tauto)))
  · exact lowerHex_of_hex hk3 (hlow y3 (hmem y3 (by tauto)))

/-- Re-encoding the decoded bytes of a lowercase valid canonical string gives
the string back. -/
theorem encodeBytes_canonical {s g1 g2 v x1 x2 x3 w y1 y2 y3 g5}
    (hsh : ValidShape s g1 g2 v x1 x2 x3 w y1 y2 y3 g5)
    (hlow : ∀ c ∈ s, charToLower c = c)
    {B1 B2 B5 : List Nat} {vv xv1 xv2 xv3 wv yv1 yv2 yv3 : Nat}
    (hB1 : hexDecode g1 = some B1) (hB2 : hexDecode g2 = some B2)
    (hB5 : hexDecode g5 = some B5)
    (hv : fromHexChar v = some vv) (hx1 : fromHexChar x1 = some xv1)
    (hx2 : fromHexChar x2 = some xv2) (hx3 : fromHexChar x3 = some xv3)
    (hw : fromHexChar w = some wv) (hy1 : fromHexChar y1 = some yv1)
    (hy2 : fromHexChar y2 = some yv2) (hy3 : fromHexChar y3 = some yv3)
    (l1 : B1.length = 4) (l2 : B2.length = 2) (l5 : B5.length = 6) :
    encodeBytes (bytesOf B1 B2 (vv * 16 + xv1) (xv2 * 16 + xv3)
      (wv * 16 + yv1) (yv2 * 16 + yv3) B5) = s := by
  obtain ⟨low1, low2, low5, lv, lx1, lx2, lx3, lw, ly1, ly2, ly3⟩ :=
    shape_lower hsh hlow
  obtain ⟨hs, hg1, hg2, hg5, -⟩ := hsh
  have eb : ∀ a b : Nat, a < 16 → b < 16 →
      hexEncByte (a * 16 + b) = [hextable.getD a ' ', hextable.getD b ' '] := by
    intro a b ha hb
    unfold hexEncByte
    have d1 : (a * 16 + b) / 16 = a := by omega
    have d2 : (a * 16 + b) % 16 = b := by omega
    rw [d1, d2]
  rw [encodeBytes_shape]
  rw [bytesOf_take4 l1, bytesOf_drop4 l1, List.take_left' l2,
    bytesOf_drop6 l1 l2, bytesOf_drop8 l1 l2, bytesOf_drop10 l1 l2]
  rw [show ((vv * 16 + xv1) :: (xv2 * 16 + xv3) :: (wv * 16 + yv1) ::
      (yv2 * 16 + yv3) :: B5).take 2 = [vv * 16 + xv1, xv2 * 16 + xv3] from rfl]
  rw [show ((wv * 16 + yv1) :: (yv2 * 16 + yv3) :: B5).take 2 =
      [wv * 16 + yv1, yv2 * 16 + yv3] from rfl]
  rw [hexEnc_hexDecode g1 hB1 low1, hexEnc_hexDecode g2 hB2 low2,
    hexEnc_hexDecode g5 hB5 low5]
  rw [show hexEnc [vv * 16 + xv1, xv2 * 16 + xv3] =
      hexEncByte (vv * 16 + xv1) ++ hexEncByte (xv2 * 16 + xv3) from by
    simp [hexEnc]]
  rw [show hexEnc [wv * 16 + yv1, yv2 * 16 + yv3] =
      hexEncByte (wv * 16 + yv1) ++ hexEncByte (yv2 * 16 + yv3) from by
    simp [hexEnc]]
  rw [eb vv xv1 (fromHexChar_lt hv) (fromHexChar_lt hx1),
    eb xv2 xv3 (fromHexChar_lt hx2) (fromHexChar_lt hx3),
    eb wv yv1 (fromHexChar_lt hw) (fromHexChar_lt hy1),
    eb yv2 yv3 (fromHexChar_lt hy2) (fromHexChar_lt hy3)]
  rw [hexDigit_fromHexChar lv hv, hexDigit_fromHexChar lx1 hx1,
    hexDigit_fromHexChar lx2 hx2, hexDigit_fromHexChar lx3 hx3,
    hexDigit_fromHexChar lw hw, hexDigit_fromHexChar ly1 hy1,
    hexDigit_fromHexChar ly2 hy2, hexDigit_fromHexChar ly3 hy3]
  rw [hs]
  simp [List.append_assoc]

lemma map_id_of {f : α → α} {l : List α} (h : ∀ c ∈ l, f c = c) :
    l.map f = l := by
  induction l with
  | nil => rfl
  | cons a l ih =>
    simp only [List.map_cons]
    rw [h a (by simp), ih (fun c hc => h c (by simp [hc]))]

lemma toLower_eq_self {s : List Char} (h : ∀ c ∈ s, charToLower c = c) :
    toLower s = s :=
  map_id_of h

lemma getD_of_drop {l : List α} {i : Nat} {c : α} {rest : List α}
    (hd : l.drop i = c :: rest) (d : α) : l.getD i d = c := by
  have hi : i < l.length := by
    by_contra hc
    push_neg at hc
    rw [List.drop_of_length_le hc] at hd
    exact absurd hd (by simp)
  have he := List.drop_eq_getElem_cons hi
  rw [hd] at he
  injection he with h1 _
  simp [List.getD_eq_getElem?_getD, List.getElem?_eq_getElem hi, ← h1]

theorem ValidShape.drop14 {s g1 g2 v x1 x2 x3 w y1 y2 y3 g5}
    (h : ValidShape s g1 g2 v x1 x2 x3 w y1 y2 y3 g5) :
    s.drop 14 = v :: x1 :: x2 :: x3 :: '-' :: w :: y1 :: y2 :: y3 :: '-' :: g5 := by
  obtain ⟨hs, hg1, hg2, -⟩ := h
  have d9 : s.drop 9 =
      g2 ++ ('-' :: v :: x1 :: x2 :: x3 :: '-' :: w :: y1 :: y2 :: y3 :: '-' :: g5) := by
    rw [hs]; exact drop_append_cons hg1
  rw [show (14 : Nat) = 9 + 5 from rfl, ← List.drop_drop, d9]
  exact drop_append_cons hg2

theorem ValidShape.drop19 {s g1 g2 v x1 x2 x3 w y1 y2 y3 g5}
    (h : ValidShape s g1 g2 v x1 x2 x3 w y1 y2 y3 g5) :
    s.drop 19 = w :: y1 :: y2 :: y3 :: '-' :: g5 := by
  rw [show (19 : Nat) = 14 + 5 from rfl, ← List.drop_drop, h.drop14]
  simp

theorem ValidShape.char14 {s g1 g2 v x1 x2 x3 w y1 y2 y3 g5}
    (h : ValidShape s g1 g2 v x1 x2 x3 w y1 y2 y3 g5) :
    s.getD 14 ' ' = v :=
  getD_of_drop h.drop14 ' '

theorem ValidShape.char19 {s g1 g2 v x1 x2 x3 w y1 y2 y3 g5}
    (h : ValidShape s g1 g2 v x1 x2 x3 w y1 y2 y3 g5) :
    s.getD 19 ' ' = w :=
  getD_of_drop h.drop19 ' '

lemma FromString_canonical {s : List Char} (h : isCanonical s = true)
    (hne : s ≠ []) : FromString s = (s, none) := by
  obtain ⟨hreg, hlow⟩ := isCanonical_elim h
  have hnz : s ≠ zeroUUIDStr := by
    intro he; rw [he] at hreg; exact absurd hreg (by decide)
  rw [FromString, if_neg (by tauto), if_neg (by rw [hreg]; simp),
    toLower_eq_self hlow]

/-- C4: `FromString` on the empty string and on the literal all-zero string
returns the nil UUID (whose `String()` is `""`) without error; on every
string matching the canonical pattern case-insensitively it succeeds with
the lowercased input; and on every other string it fails with the
InvalidFormat error carrying the offending input. -/
theorem C4_fromString :
    FromString [] = ([], none) ∧
    FromString zeroUUIDStr = ([], none) ∧
    (∀ s, uuidRegexMatch s = true → FromString s = (toLower s, none)) ∧
    (∀ s, s ≠ [] → s ≠ zeroUUIDStr → uuidRegexMatch s = false →
      FromString s = ([], some (("invalid uuid: ").data ++ s))) := by
  refine ⟨rfl, by rw [FromString, if_pos (Or.inr rfl)], ?_, ?_⟩
  · intro s hs
    have hne : s ≠ [] := by
      intro he; rw [he] at hs; exact absurd hs (by decide)
    have hnz : s ≠ zeroUUIDStr := by
      intro he; rw [he] at hs; exact absurd hs (by decide)
    rw [FromString, if_neg (by tauto), if_neg (by rw [hs]; simp)]
  · intro s h1 h2 h3
    rw [FromString, if_neg (by tauto), if_pos h3]

/-- Witness for C4 at concrete inputs: a mixed-case valid string is accepted
and lowercased; a malformed string is rejected with the error carrying it. -/
theorem C4_fromString_witness :
    FromString (("AFE40693-8F63-4766-85F1-250a427F1DB5").data) =
      (toLower (("AFE40693-8F63-4766-85F1-250a427F1DB5").data), none) ∧
    FromString (("asda").data) =
      ([], some (("invalid uuid: ").data ++ ("asda").data)) :=
  ⟨C4_fromString.2.2.1 (("AFE40693-8F63-4766-85F1-250a427F1DB5").data) (by decide),
    C4_fromString.2.2.2 (("asda").data) (by decide) (by decide) (by decide)⟩

lemma hash_filter {s g1 g2 v x1 x2 x3 w y1 y2 y3 g5}
    (h : ValidShape s g1 g2 v x1 x2 x3 w y1 y2 y3 g5) :
    s.filter (· != '-') = hashOf g1 g2 v x1 x2 x3 w y1 y2 y3 g5 := by
  obtain ⟨hs, hg1, hg2, hg5, hx1, hx2, hx5, hv, hh1, hh2, hh3, hw, hk1, hk2, hk3⟩ := h
  have fd : ∀ (g : List Char), (∀ c ∈ g, isHexChar c = true) →
      g.filter (· != '-') = g := by
    intro g hg
    apply List.filter_eq_self.mpr
    intro c hc
    simpa [bne_iff_ne] using isHexChar_ne_dash (hg c hc)
  have f1 := fd g1 hx1
  have f2 := fd g2 hx2
  have f5 := fd g5 hx5
  have sv : (v != '-') = true := by
    simpa [bne_iff_ne] using isHexChar_ne_dash (isVersionChar_isHexChar hv)
  have s1 : (x1 != '-') = true := by simpa [bne_iff_ne] using isHexChar_ne_dash hh1
  have s2 : (x2 != '-') = true := by simpa [bne_iff_ne] using isHexChar_ne_dash hh2
  have s3 : (x3 != '-') = true := by simpa [bne_iff_ne] using isHexChar_ne_dash hh3
  have sw : (w != '-') = true := by
    simpa [bne_iff_ne] using isHexChar_ne_dash (isVariantChar_isHexChar hw)
  have t1 : (y1 != '-') = true := by simpa [bne_iff_ne] using isHexChar_ne_dash hk1
  have t2 : (y2 != '-') = true := by simpa [bne_iff_ne] using isHexChar_ne_dash hk2
  have t3 : (y3 != '-') = true := by simpa [bne_iff_ne] using isHexChar_ne_dash hk3
  rw [hs]
  simp [List.filter_append, List.filter_cons, f1, f2, f5, sv, s1, s2, s3, sw,
    t1, t2, t3, hashOf, List.append_assoc]

lemma hashOf_length {g1 g2 : List Char} {v x1 x2 x3 w y1 y2 y3 : Char}
    {g5 : List Char} (hg1 : g1.length = 8) (hg2 : g2.length = 4)
    (hg5 : g5.length = 12) :
    (hashOf g1 g2 v x1 x2 x3 w y1 y2 y3 g5).length = 32 := by
  simp [hashOf, hg1, hg2, hg5]

lemma hashOf_take8 {g1 g2 : List Char} {v x1 x2 x3 w y1 y2 y3 : Char}
    {g5 : List Char} (hg1 : g1.length = 8) :
    (hashOf g1 g2 v x1 x2 x3 w y1 y2 y3 g5).take 8 = g1 :=
  List.take_left' hg1

lemma hashOf_drop8 {g1 g2 : List Char} {v x1 x2 x3 w y1 y2 y3 : Char}
    {g5 : List Char} (hg1 : g1.length = 8) :
    (hashOf g1 g2 v x1 x2 x3 w y1 y2 y3 g5).drop 8 =
      g2 ++ (v :: x1 :: x2 :: x3 :: w :: y1 :: y2 :: y3 :: g5) :=
  List.drop_left' hg1

lemma hashOf_drop12 {g1 g2 : List Char} {v x1 x2 x3 w y1 y2 y3 : Char}
    {g5 : List Char} (hg1 : g1.length = 8) (hg2 : g2.length = 4) :
    (hashOf g1 g2 v x1 x2 x3 w y1 y2 y3 g5).drop 12 =
      v :: x1 :: x2 :: x3 :: w :: y1 :: y2 :: y3 :: g5 := by
  rw [show (12 : Nat) = 8 + 4 from rfl, ← List.drop_drop, hashOf_drop8 hg1,
    List.drop_left' hg2]

lemma hashOf_drop16 {g1 g2 : List Char} {v x1 x2 x3 w y1 y2 y3 : Char}
    {g5 : List Char} (hg1 : g1.length = 8) (hg2 : g2.length = 4) :
    (hashOf g1 g2 v x1 x2 x3 w y1 y2 y3 g5).drop 16 =
      w :: y1 :: y2 :: y3 :: g5 := by
  rw [show (16 : Nat) = 12 + 4 from rfl, ← List.drop_drop, hashOf_drop12 hg1 hg2]
  simp

lemma hashOf_drop20 {g1 g2 : List Char} {v x1 x2 x3 w y1 y2 y3 : Char}
    {g5 : List Char} (hg1 : g1.length = 8) (hg2 : g2.length = 4) :
    (hashOf g1 g2 v x1 x2 x3 w y1 y2 y3 g5).drop 20 = g5 := by
  rw [show (20 : Nat) = 16 + 4 from rfl, ← List.drop_drop, hashOf_drop16 hg1 hg2]
  simp

lemma version_ne_zero {v : Char} (hv : isVersionChar v = true) : v ≠ '0' := by
  unfold isVersionChar at hv
  rw [inRange_iff] at hv
  intro he
  subst he
  revert hv
  decide

/-- C5: for every non-nil lowercase valid canonical UUID `u`, `HashLike u`
is exactly `u` with its four hyphens removed — a 32-character hex string —
and `FromHashLike (HashLike u) = u`; `FromHashLike` maps the empty string
and the all-zero 32-character string to nil, and fails with the
InvalidFormat error carrying the input when the length is not 32 or when
the re-hyphenated form fails canonical validation. -/
theorem C5_hashLike_fromHashLike :
    FromHashLike [] = ([], none) ∧
    FromHashLike zeroHashStr = ([], none) ∧
    (∀ u, isCanonical u = true → u ≠ [] →
      ∃ h, HashLike u = some h ∧ h = u.filter (· != '-') ∧ h.length = 32 ∧
        (∀ c ∈ h, isHexChar c = true) ∧ FromHashLike h = (u, none)) ∧
    (∀ s, s ≠ [] → s ≠ zeroHashStr →
      (s.length ≠ 32 → FromHashLike s = ([], some (("invalid uuid: ").data ++ s))) ∧
      (s.length = 32 →
        uuidRegexMatch (s.take 8 ++ '-' :: (s.drop 8).take 4 ++
          '-' :: (s.drop 12).take 4 ++ '-' :: (s.drop 16).take 4 ++
          '-' :: s.drop 20) = false →
        FromHashLike s = ([], some (("invalid uuid: ").data ++ s)))) := by
  refine ⟨rfl, by rw [FromHashLike, if_pos (Or.inr rfl)], ?_, ?_⟩
  · intro u hcan hne
    obtain ⟨hreg, hlow⟩ := isCanonical_elim hcan
    obtain ⟨g1, g2, v, x1, x2, x3, w, y1, y2, y3, g5, hsh⟩ :=
      uuidRegexMatch_shape hreg
    have hg1 := hsh.2.1
    have hg2 := hsh.2.2.1
    have hg5 := hsh.2.2.2.1
    have hx1 := hsh.2.2.2.2.1
    have hx2 := hsh.2.2.2.2.2.1
    have hx5 := hsh.2.2.2.2.2.2.1
    have hv := hsh.2.2.2.2.2.2.2.1
    have hs := hsh.1
    refine ⟨hashOf g1 g2 v x1 x2 x3 w y1 y2 y3 g5, hsh.hashLike,
      (hash_filter hsh).symm, hashOf_length hg1 hg2 hg5, ?_, ?_⟩
    · intro c hc
      simp only [hashOf, List.mem_append, List.mem_cons] at hc
      rcases hc with hc | hc | rfl | rfl | rfl | rfl | rfl | rfl | rfl | rfl | hc
      · exact hx1 c hc
      · exact hx2 c hc
      · exact isVersionChar_isHexChar hv
      · exact hsh.2.2.2.2.2.2.2.2.1
      · exact hsh.2.2.2.2.2.2.2.2.2.1
      · exact hsh.2.2.2.2.2.2.2.2.2.2.1
      · exact isVariantChar_isHexChar hsh.2.2.2.2.2.2.2.2.2.2.2.1
      · exact hsh.2.2.2.2.2.2.2.2.2.2.2.2.1
      · exact hsh.2.2.2.2.2.2.2.2.2.2.2.2.2.1
      · exact hsh.2.2.2.2.2.2.2.2.2.2.2.2.2.2
      · exact hx5 c hc
    · have hlen32 : (hashOf g1 g2 v x1 x2 x3 w y1 y2 y3 g5).length = 32 :=
        hashOf_length hg1 hg2 hg5
      have hne' : hashOf g1 g2 v x1 x2 x3 w y1 y2 y3 g5 ≠ [] := by
        intro he; rw [he] at hlen32; simp at hlen32
      have hnz : hashOf g1 g2 v x1 x2 x3 w y1 y2 y3 g5 ≠ zeroHashStr := by
        intro he
        have h12 : (hashOf g1 g2 v x1 x2 x3 w y1 y2 y3 g5).getD 12 ' ' = v :=
          getD_of_drop (hashOf_drop12 hg1 hg2) ' '
        rw [he] at h12
        have : v = '0' := by rw [← h12]; decide
        exact version_ne_zero hv this
      rw [FromHashLike, if_neg (by tauto), if_neg (by omega)]
      simp only [hashOf_take8 hg1, hashOf_drop8 hg1, hashOf_drop12 hg1 hg2,
        hashOf_drop16 hg1 hg2, hashOf_drop20 hg1 hg2, List.take_left' hg2]
      have e3 : (v :: x1 :: x2 :: x3 :: w :: y1 :: y2 :: y3 :: g5).take 4 =
          [v, x1, x2, x3] := rfl
      have e4 : (w :: y1 :: y2 :: y3 :: g5).take 4 = [w, y1, y2, y3] := rfl
      rw [e3, e4]
      have hrebuild : g1 ++ '-' :: g2 ++ '-' :: [v, x1, x2, x3] ++
          '-' :: [w, y1, y2, y3] ++ '-' :: g5 = u := by
        rw [hs]
        simp [List.append_assoc]
      rw [hrebuild, if_neg (by rw [hreg]; simp), toLower_eq_self hlow]
  · intro s h1 h2
    constructor
    · intro hlen
      rw [FromHashLike, if_neg (by tauto), if_pos hlen]
    · intro hlen hfail
      rw [FromHashLike, if_neg (by tauto), if_neg (by omega)]
      simp only [hfail]
      simp

lemma get?_of_drop {l : List α} {i : Nat} {c : α} {rest : List α}
    (hd : l.drop i = c :: rest) : l.get? i = some c := by
  have hi : i < l.length := by
    by_contra hc
    push_neg at hc
    rw [List.drop_of_length_le hc] at hd
    exact absurd hd (by simp)
  have he := List.drop_eq_getElem_cons hi
  rw [hd] at he
  injection he with h1 _
  rw [List.get?_eq_getElem?, List.getElem?_eq_getElem hi, ← h1]

lemma shape_char_class {s g1 g2 v x1 x2 x3 w y1 y2 y3 g5}
    (h : ValidShape s g1 g2 v x1 x2 x3 w y1 y2 y3 g5) :
    ∀ c ∈ s, isHexChar c = true ∨ c = '-' := by
  obtain ⟨hs, hg1, hg2, hg5, hx1, hx2, hx5, hv, hh1, hh2, hh3, hw, hk1, hk2, hk3⟩ := h
  intro c hc
  rw [hs] at hc
  simp only [List.mem_append, List.mem_cons] at hc
  rcases hc with hc | rfl | hc | rfl | rfl | rfl | rfl | rfl | rfl | rfl | rfl | rfl | rfl | rfl | hc
  · exact Or.inl (hx1 c hc)
  · exact Or.inr rfl
  · exact Or.inl (hx2 c hc)
  · exact Or.inr rfl
  · exact Or.inl (isVersionChar_isHexChar hv)
  · exact Or.inl hh1
  · exact Or.inl hh2
  · exact Or.inl hh3
  · exact Or.inr rfl
  · exact Or.inl (isVariantChar_isHexChar hw)
  · exact Or.inl hk1
  · exact Or.inl hk2
  · exact Or.inl hk3
  · exact Or.inr rfl
  · exact Or.inl (hx5 c hc)

lemma quoteChar_safe {c : Char} (h : isHexChar c = true ∨ c = '-') :
    quoteChar c = [c] := by
  rcases h with h | rfl
  · unfold isHexChar at h
    rw [Bool.or_eq_true, Bool.or_eq_true, inRange_iff, inRange_iff, inRange_iff] at h
    unfold quoteChar
    rw [if_neg, if_pos]
    · rw [inRange_iff]
      rcases h with (h | h) | h <;> omega
    · rintro (rfl | rfl) <;> revert h <;> decide
  · rfl

lemma escapeChars_safe {s : List Char} (h : ∀ c ∈ s, isHexChar c = true ∨ c = '-') :
    escapeChars s = s := by
  induction s with
  | nil => rfl
  | cons c rest ih =>
    rw [escapeChars, quoteChar_safe (h c (by simp)),
      ih (fun d hd => h d (by simp [hd]))]
    rfl

lemma simpleChar_safe {c : Char} (h : isHexChar c = true ∨ c = '-') :
    simpleChar '"' c = true := by
  unfold simpleChar
  have hr : inRange 32 126 c = true := by
    rcases h with h | rfl
    · unfold isHexChar at h
      rw [Bool.or_eq_true, Bool.or_eq_true, inRange_iff, inRange_iff,
        inRange_iff] at h
      rw [inRange_iff]
      rcases h with (h | h) | h <;> omega
    · decide
  have h1 : (c != '"') = true := by
    rcases h with h | rfl
    · simp only [bne_iff_ne, ne_eq]
      intro he; subst he; revert h; decide
    · decide
  have h2 : (c != '\\') = true := by
    rcases h with h | rfl
    · simp only [bne_iff_ne, ne_eq]
      intro he; subst he; revert h; decide
    · decide
  rw [h1, h2, hr]
  rfl

lemma goUnquote_goQuote {s : List Char}
    (h : ∀ c ∈ s, isHexChar c = true ∨ c = '-') :
    goUnquote (goQuote s) = some s := by
  rw [goQuote, escapeChars_safe h, List.cons_append, goUnquote.eq_def]
  simp only []
  rw [if_pos trivial, List.getLast?_concat]
  simp only [List.dropLast_concat]
  rw [if_pos ⟨trivial, List.all_eq_true.mpr (fun c hc => simpleChar_safe (h c hc))⟩]

lemma goQuote_ne_null {s : List Char} : goQuote s ≠ ("null").data := by
  intro he
  rw [goQuote, List.cons_append] at he
  rw [show ("null").data = 'n' :: ("ull").data from rfl] at he
  injection he with h1 _
  exact absurd h1 (by decide)

/-- Computation of `Value` on a lowercase valid canonical string: it
produces the 16 decoded bytes. -/
theorem Value_canonical {s g1 g2 v x1 x2 x3 w y1 y2 y3 g5}
    (hsh : ValidShape s g1 g2 v x1 x2 x3 w y1 y2 y3 g5)
    {B1 B2 B5 : List Nat} {vv xv1 xv2 xv3 wv yv1 yv2 yv3 : Nat}
    (hB1 : hexDecode g1 = some B1) (hB2 : hexDecode g2 = some B2)
    (hB5 : hexDecode g5 = some B5)
    (hv : fromHexChar v = some vv) (hx1 : fromHexChar x1 = some xv1)
    (hx2 : fromHexChar x2 = some xv2) (hx3 : fromHexChar x3 = some xv3)
    (hw : fromHexChar w = some wv) (hy1 : fromHexChar y1 = some yv1)
    (hy2 : fromHexChar y2 = some yv2) (hy3 : fromHexChar y3 = some yv3) :
    Value s = .ok (some (bytesOf B1 B2 (vv * 16 + xv1) (xv2 * 16 + xv3)
      (wv * 16 + yv1) (yv2 * 16 + yv3) B5)) := by
  have hlen := hsh.len
  have hne := hsh.ne_nil
  have d14 := hsh.drop14
  have d19 := hsh.drop19
  have hs := hsh.1
  have hg1 := hsh.2.1
  have hg2 := hsh.2.2.1
  have hg5 := hsh.2.2.2.1
  have d8 : s.drop 8 =
      '-' :: (g2 ++ ('-' :: v :: x1 :: x2 :: x3 :: '-' :: w :: y1 :: y2 :: y3 :: '-' :: g5)) := by
    rw [hs]; exact List.drop_left' hg1
  have d9 : s.drop 9 =
      g2 ++ ('-' :: v :: x1 :: x2 :: x3 :: '-' :: w :: y1 :: y2 :: y3 :: '-' :: g5) := by
    rw [hs]; exact drop_append_cons hg1
  have d13 : s.drop 13 =
      '-' :: v :: x1 :: x2 :: x3 :: '-' :: w :: y1 :: y2 :: y3 :: '-' :: g5 := by
    rw [show (13 : Nat) = 9 + 4 from rfl, ← List.drop_drop, d9]
    exact List.drop_left' hg2
  have d18 : s.drop 18 = '-' :: w :: y1 :: y2 :: y3 :: '-' :: g5 := by
    rw [show (18 : Nat) = 14 + 4 from rfl, ← List.drop_drop, d14]
    simp
  have d23 : s.drop 23 = '-' :: g5 := by
    rw [show (23 : Nat) = 19 + 4 from rfl, ← List.drop_drop, d19]
    simp
  have i8 : goIndex s 8 = some '-' := get?_of_drop d8
  have i13 : goIndex s 13 = some '-' := get?_of_drop d13
  have i18 : goIndex s 18 = some '-' := get?_of_drop d18
  have i23 : goIndex s 23 = some '-' := get?_of_drop d23
  have lT1 : (g2 ++ ('-' :: v :: x1 :: x2 :: x3 :: '-' :: w :: y1 :: y2 :: y3 ::
      '-' :: g5)).length = 27 := by
    simp [hg2, hg5]
  have lT2 : (v :: x1 :: x2 :: x3 :: '-' :: w :: y1 :: y2 :: y3 ::
      '-' :: g5).length = 22 := by
    simp [hg5]
  have lT3 : (w :: y1 :: y2 :: y3 :: '-' :: g5).length = 17 := by
    simp [hg5]
  have a1 : goSlice s 0 8 = some g1 := by
    rw [goSlice, if_pos (by omega)]
    simp only [List.drop_zero, show (8 : Nat) - 0 = 8 from rfl]
    rw [hs, List.take_left' hg1]
  have a2 : goSliceFrom s 8 = some ('-' :: (g2 ++ ('-' :: v :: x1 :: x2 :: x3 ::
      '-' :: w :: y1 :: y2 :: y3 :: '-' :: g5))) := by
    rw [goSliceFrom, if_pos (by omega), d8]
  have b0 : goSliceFrom ('-' :: (g2 ++ ('-' :: v :: x1 :: x2 :: x3 ::
      '-' :: w :: y1 :: y2 :: y3 :: '-' :: g5))) 1 =
      some (g2 ++ ('-' :: v :: x1 :: x2 :: x3 ::
      '-' :: w :: y1 :: y2 :: y3 :: '-' :: g5)) := by
    rw [goSliceFrom, if_pos (by simp)]
    simp
  have b1 : goSlice (g2 ++ ('-' :: v :: x1 :: x2 :: x3 ::
      '-' :: w :: y1 :: y2 :: y3 :: '-' :: g5)) 0 4 = some g2 := by
    rw [goSlice, if_pos (by omega)]
    simp only [List.drop_zero, show (4 : Nat) - 0 = 4 from rfl]
    rw [List.take_left' hg2]
  have b2 : goSliceFrom (g2 ++ ('-' :: v :: x1 :: x2 :: x3 ::
      '-' :: w :: y1 :: y2 :: y3 :: '-' :: g5)) 4 =
      some ('-' :: v :: x1 :: x2 :: x3 :: '-' :: w :: y1 :: y2 :: y3 ::
      '-' :: g5) := by
    rw [goSliceFrom, if_pos (by omega), List.drop_left' hg2]
  have c0 : goSliceFrom ('-' :: v :: x1 :: x2 :: x3 :: '-' :: w :: y1 :: y2 ::
      y3 :: '-' :: g5) 1 = some (v :: x1 :: x2 :: x3 :: '-' :: w :: y1 :: y2 ::
      y3 :: '-' :: g5) := by
    rw [goSliceFrom, if_pos (by simp)]
    simp
  have c1 : goSlice (v :: x1 :: x2 :: x3 :: '-' :: w :: y1 :: y2 :: y3 ::
      '-' :: g5) 0 4 = some [v, x1, x2, x3] := by
    rw [goSlice, if_pos (by simp)]
    rfl
  have c2 : goSliceFrom (v :: x1 :: x2 :: x3 :: '-' :: w :: y1 :: y2 :: y3 ::
      '-' :: g5) 4 = some ('-' :: w :: y1 :: y2 :: y3 :: '-' :: g5) := by
    rw [goSliceFrom, if_pos (by simp)]
    simp
  have e0 : goSliceFrom ('-' :: w :: y1 :: y2 :: y3 :: '-' :: g5) 1 =
      some (w :: y1 :: y2 :: y3 :: '-' :: g5) := by
    rw [goSliceFrom, if_pos (by simp)]
    simp
  have e1 : goSlice (w :: y1 :: y2 :: y3 :: '-' :: g5) 0 4 =
      some [w, y1, y2, y3] := by
    rw [goSlice, if_pos (by simp)]
    rfl
  have e2 : goSliceFrom (w :: y1 :: y2 :: y3 :: '-' :: g5) 4 =
      some ('-' :: g5) := by
    rw [goSliceFrom, if_pos (by simp)]
    simp
  have f0 : goSliceFrom ('-' :: g5) 1 = some g5 := by
    rw [goSliceFrom, if_pos (by simp)]
    simp
  have f1 : goSlice g5 0 12 = some g5 := by
    rw [goSlice, if_pos (by omega)]
    simp only [List.drop_zero, show (12 : Nat) - 0 = 12 from rfl]
    rw [List.take_of_length_le (by omega)]
  have f2 : goSliceFrom g5 12 = some [] := by
    rw [goSliceFrom, if_pos (by omega), List.drop_of_length_le (by omega)]
  have hdec3 : hexDecode [v, x1, x2, x3] =
      some [vv * 16 + xv1, xv2 * 16 + xv3] := by
    apply hexDecode_cons.mpr
    exact ⟨vv, xv1, _, hv, hx1, hexDecode_cons.mpr
      ⟨xv2, xv3, [], hx2, hx3, rfl, rfl⟩, rfl⟩
  have hdec4 : hexDecode [w, y1, y2, y3] =
      some [wv * 16 + yv1, yv2 * 16 + yv3] := by
    apply hexDecode_cons.mpr
    exact ⟨wv, yv1, _, hw, hy1, hexDecode_cons.mpr
      ⟨yv2, yv3, [], hy2, hy3, rfl, rfl⟩, rfl⟩
  have hloop : valueLoop [8, 4, 4, 4, 12] s true =
      .ok (bytesOf B1 B2 (vv * 16 + xv1) (xv2 * 16 + xv3)
        (wv * 16 + yv1) (yv2 * 16 + yv3) B5) := by
    rw [valueLoop]
    simp only [if_true, a1, hB1, a2]
    rw [valueLoop]
    simp only [Bool.false_eq_true, if_false, b0, b1, hB2, b2]
    rw [valueLoop]
    simp only [Bool.false_eq_true, if_false, c0, c1, hdec3, c2]
    rw [valueLoop]
    simp only [Bool.false_eq_true, if_false, e0, e1, hdec4, e2]
    rw [valueLoop]
    simp only [Bool.false_eq_true, if_false, f0, f1, hB5, f2]
    rw [valueLoop]
    simp [bytesOf]
  rw [Value, if_neg hne, i8, i13, i18, i23]
  simp only [ne_eq, not_true_eq_false, if_false, reduceIte]
  rw [hloop]

/-- C7: round-tripping a non-nil lowercase valid canonical UUID through each
external encoding reproduces it exactly: text, JSON, binary, and the SQL
driver pair `Value`/`Scan`. -/
theorem C7_roundtrips (u cur : List Char) (hcan : isCanonical u = true)
    (hne : u ≠ []) :
    UnmarshalText cur (MarshalText u) = (none, u) ∧
    UnmarshalJSON cur (MarshalJSON u) = (none, u) ∧
    UnmarshalBinary cur (MarshalBinary u) = (none, u) ∧
    ∃ bv, Value u = .ok (some bv) ∧ bv.length = 16 ∧
      Scan cur (.bytes bv) = (none, u) := by
  obtain ⟨hreg, hlow⟩ := isCanonical_elim hcan
  obtain ⟨g1, g2, v, x1, x2, x3, w, y1, y2, y3, g5, hsh⟩ :=
    uuidRegexMatch_shape hreg
  obtain ⟨B1, B2, B5, vv, xv1, xv2, xv3, wv, yv1, yv2, yv3,
    hB1, hB2, hB5, hv, hx1, hx2, hx3, hw, hy1, hy2, hy3, l1, l2, l5, hdec⟩ :=
    hsh.decode
  have htext : UnmarshalText cur (MarshalText u) = (none, u) := by
    simp only [UnmarshalText, MarshalText, FromString_canonical hcan hne]
  refine ⟨htext, ?_, ?_, ?_⟩
  · rw [MarshalJSON]
    simp only [UnmarshalJSON, if_neg goQuote_ne_null,
      goUnquote_goQuote (shape_char_class hsh), FromString_canonical hcan hne]
  · rw [UnmarshalBinary, MarshalBinary]
    exact htext
  · refine ⟨bytesOf B1 B2 (vv * 16 + xv1) (xv2 * 16 + xv3) (wv * 16 + yv1)
      (yv2 * 16 + yv3) B5,
      Value_canonical hsh hB1 hB2 hB5 hv hx1 hx2 hx3 hw hy1 hy2 hy3,
      bytesOf_length l1 l2 l5, ?_⟩
    simp only [Scan, if_pos (bytesOf_length l1 l2 l5),
      encodeBytes_canonical hsh hlow hB1 hB2 hB5 hv hx1 hx2 hx3 hw hy1 hy2 hy3
        l1 l2 l5,
      FromString_canonical hcan hne]

/-- Witness for C7 at a concrete canonical UUID. -/
theorem C7_roundtrips_witness :
    isCanonical (("afe40693-8f63-4766-85f1-250a427f1db5").data) = true ∧
    (UnmarshalText [] (MarshalText (("afe40693-8f63-4766-85f1-250a427f1db5").data)) =
      (none, ("afe40693-8f63-4766-85f1-250a427f1db5").data) ∧
    UnmarshalJSON [] (MarshalJSON (("afe40693-8f63-4766-85f1-250a427f1db5").data)) =
      (none, ("afe40693-8f63-4766-85f1-250a427f1db5").data) ∧
    UnmarshalBinary [] (MarshalBinary (("afe40693-8f63-4766-85f1-250a427f1db5").data)) =
      (none, ("afe40693-8f63-4766-85f1-250a427f1db5").data) ∧
    ∃ bv, Value (("afe40693-8f63-4766-85f1-250a427f1db5").data) = .ok (some bv) ∧
      bv.length = 16 ∧
      Scan [] (.bytes bv) = (none, ("afe40693-8f63-4766-85f1-250a427f1db5").data)) :=
  ⟨by decide, C7_roundtrips (("afe40693-8f63-4766-85f1-250a427f1db5").data) []
    (by decide) (by decide)⟩

lemma drop_getD {l : List α} {i : Nat} (h : i < l.length) (d : α) :
    l.drop i = l.getD i d :: l.drop (i + 1) := by
  rw [List.drop_eq_getElem_cons h]
  congr 1
  simp [List.getD_eq_getElem?_getD, List.getElem?_eq_getElem h]

lemma forall_mem_of_getD {l : List Nat} (h : ∀ i, i < l.length → l.getD i 0 < 256) :
    ∀ x ∈ l, x < 256 := by
  intro x hx
  obtain ⟨i, hi, he⟩ := List.mem_iff_getElem.mp hx
  have h2 := h i hi
  rw [List.getD_eq_getElem?_getD, List.getElem?_eq_getElem hi] at h2
  simpa [he] using h2

lemma list_eq_of_getD {l1 l2 : List Nat} (h1 : l1.length = 16)
    (h2 : l2.length = 16) (h : ∀ i, i < 16 → l1.getD i 0 = l2.getD i 0) :
    l1 = l2 := by
  apply List.ext_getElem (by omega)
  intro i hi1 hi2
  have he := h i (by omega)
  rwa [List.getD_eq_getElem?_getD, List.getElem?_eq_getElem hi1,
    List.getD_eq_getElem?_getD, List.getElem?_eq_getElem hi2,
    Option.getD_some, Option.getD_some] at he

lemma encodeBytes_length {bs : List Nat} (h : bs.length = 16) :
    (encodeBytes bs).length = 36 := by
  rw [encodeBytes_shape]
  simp [hexEnc_length, h]

lemma encodeBytes_ne_nil {bs : List Nat} (h : bs.length = 16) :
    encodeBytes bs ≠ [] := by
  intro he
  have := encodeBytes_length h
  rw [he] at this
  simp at this

/-- Decoded-byte view of a non-nil lowercase valid canonical UUID. -/
theorem canonical_decode {u : List Char} (hc : isCanonical u = true)
    (hne : u ≠ []) :
    ∃ hash A, HashLike u = some hash ∧ hexDecode hash = some A ∧
      hexEnc A = hash ∧ A.length = 16 ∧ (∀ x ∈ A, x < 256) ∧
      encodeBytes A = u ∧
      fromHexChar (u.getD 14 ' ') = some (A.getD 6 0 / 16) ∧
      8 ≤ A.getD 8 0 / 16 ∧ A.getD 8 0 / 16 < 12 := by
  obtain ⟨hreg, hlow⟩ := isCanonical_elim hc
  obtain ⟨g1, g2, v, x1, x2, x3, w, y1, y2, y3, g5, hsh⟩ :=
    uuidRegexMatch_shape hreg
  obtain ⟨B1, B2, B5, vv, xv1, xv2, xv3, wv, yv1, yv2, yv3,
    hB1, hB2, hB5, hv, hx1, hx2, hx3, hw, hy1, hy2, hy3, l1, l2, l5, hdec⟩ :=
    hsh.decode
  obtain ⟨low1, low2, low5, lv, lx1, lx2, lx3, lw, ly1, ly2, ly3⟩ :=
    shape_lower hsh hlow
  have hwvar : isVariantChar w = true := hsh.2.2.2.2.2.2.2.2.2.2.2.1
  have hashlow : ∀ c ∈ hashOf g1 g2 v x1 x2 x3 w y1 y2 y3 g5,
      isLowerHexChar c = true := by
    intro c hcm
    simp only [hashOf, List.mem_append, List.mem_cons] at hcm
    rcases hcm with hcm | hcm | rfl | rfl | rfl | rfl | rfl | rfl | rfl | rfl | hcm
    · exact low1 c hcm
    · exact low2 c hcm
    · exact lv
    · exact lx1
    · exact lx2
    · exact lx3
    · exact lw
    · exact ly1
    · exact ly2
    · exact ly3
    · exact low5 c hcm
  have hg6 : (bytesOf B1 B2 (vv * 16 + xv1) (xv2 * 16 + xv3) (wv * 16 + yv1)
      (yv2 * 16 + yv3) B5).getD 6 0 = vv * 16 + xv1 :=
    bytesOf_getD6 l1 l2 l5
  have hg8 : (bytesOf B1 B2 (vv * 16 + xv1) (xv2 * 16 + xv3) (wv * 16 + yv1)
      (yv2 * 16 + yv3) B5).getD 8 0 = wv * 16 + yv1 :=
    bytesOf_getD8 l1 l2 l5
  have hxv1lt := fromHexChar_lt hx1
  have hyv1lt := fromHexChar_lt hy1
  have hd6 : (bytesOf B1 B2 (vv * 16 + xv1) (xv2 * 16 + xv3) (wv * 16 + yv1)
      (yv2 * 16 + yv3) B5).getD 6 0 / 16 = vv := by
    rw [hg6]; omega
  have hd8 : (bytesOf B1 B2 (vv * 16 + xv1) (xv2 * 16 + xv3) (wv * 16 + yv1)
      (yv2 * 16 + yv3) B5).getD 8 0 / 16 = wv := by
    rw [hg8]; omega
  obtain ⟨hw8, hw12⟩ := variant_val hwvar hw
  refine ⟨hashOf g1 g2 v x1 x2 x3 w y1 y2 y3 g5,
    bytesOf B1 B2 (vv * 16 + xv1) (xv2 * 16 + xv3) (wv * 16 + yv1)
      (yv2 * 16 + yv3) B5,
    hsh.hashLike, hdec, hexEnc_hexDecode _ hdec hashlow,
    bytesOf_length l1 l2 l5,
    hexDecode_lt _ hdec,
    encodeBytes_canonical hsh hlow hB1 hB2 hB5 hv hx1 hx2 hx3 hw hy1 hy2 hy3
      l1 l2 l5, ?_, ?_, ?_⟩
  · rw [hsh.char14, hd6]
    exact hv
  · omega
  · omega

/-- Evaluation of a successful `XOR`. -/
lemma XOR_eval {a b ha hb : List Char} {A B : List Nat}
    (hna : a ≠ []) (hnb : b ≠ [])
    (h1 : HashLike a = some ha) (h2 : HashLike b = some hb)
    (h3 : hexDecode ha = some A) (h4 : hexDecode hb = some B)
    (hA : A.length = 16) (hB : B.length = 16) :
    XOR a b = .ok (encodeBytes (xorArr A B)) := by
  rw [XOR, if_neg (by tauto), h1, h2]
  simp only [h3, h4]
  rw [if_pos ⟨by omega, by omega⟩]

lemma xorArr_comm {A B : List Nat} (hA : A.length = 16) (hB : B.length = 16) :
    xorArr A B = xorArr B A := by
  unfold xorArr
  have he : (List.range 16).map
      (fun i => if i < A.length then A.getD i 0 ^^^ B.getD i 0 else 0) =
      (List.range 16).map
      (fun i => if i < B.length then B.getD i 0 ^^^ A.getD i 0 else 0) := by
    apply List.map_congr_left
    intro i _
    rw [hA, hB, Nat.xor_comm]
  rw [he]

lemma xorArr_getD_lt {A B : List Nat} (hA : A.length = 16) (hB : B.length = 16)
    (hAlt : ∀ x ∈ A, x < 256) (hBlt : ∀ x ∈ B, x < 256) :
    ∀ x ∈ xorArr A B, x < 256 := by
  apply forall_mem_of_getD
  intro i hi
  rw [xorArr_length] at hi
  rw [xorArr_getD hA hi]
  have hxor : A.getD i 0 ^^^ B.getD i 0 < 256 :=
    xor_lt_256 (getD_lt hAlt (by omega)) (getD_lt hBlt (by omega))
  have h6 : A.getD 6 0 ^^^ B.getD 6 0 < 256 :=
    xor_lt_256 (getD_lt hAlt (by omega)) (getD_lt hBlt (by omega))
  have h8 : A.getD 8 0 ^^^ B.getD 8 0 < 256 :=
    xor_lt_256 (getD_lt hAlt (by omega)) (getD_lt hBlt (by omega))
  split_ifs with e6 e8
  · exact stampVersion_lt _
  · exact stampVariant_lt _
  · exact hxor

lemma encodeBytes_char {bs : List Nat} (h : bs.length = 16) :
    (encodeBytes bs).getD 14 ' ' = hextable.getD (bs.getD 6 0 / 16) ' ' ∧
    (encodeBytes bs).getD 19 ' ' = hextable.getD (bs.getD 8 0 / 16) ' ' := by
  have h6 : bs.drop 6 = bs.getD 6 0 :: bs.drop 7 := drop_getD (by omega) 0
  have h7 : bs.drop 7 = bs.getD 7 0 :: bs.drop 8 := drop_getD (by omega) 0
  have h8 : bs.drop 8 = bs.getD 8 0 :: bs.drop 9 := drop_getD (by omega) 0
  have h9 : bs.drop 9 = bs.getD 9 0 :: bs.drop 10 := drop_getD (by omega) 0
  have t67 : (bs.drop 6).take 2 = [bs.getD 6 0, bs.getD 7 0] := by
    rw [h6, h7]; rfl
  have t89 : (bs.drop 8).take 2 = [bs.getD 8 0, bs.getD 9 0] := by
    rw [h8, h9]; rfl
  have l1 : (hexEnc (bs.take 4)).length = 8 := by rw [hexEnc_length]; simp [h]
  have l2 : (hexEnc ((bs.drop 4).take 2)).length = 4 := by
    rw [hexEnc_length]; simp [h]
  have d9 : (encodeBytes bs).drop 9 = hexEnc ((bs.drop 4).take 2) ++
      ('-' :: (hexEnc ((bs.drop 6).take 2) ++ ('-' :: (hexEnc ((bs.drop 8).take 2) ++
      ('-' :: hexEnc (bs.drop 10)))))) := by
    rw [encodeBytes_shape]
    exact drop_append_cons l1
  have d14 : (encodeBytes bs).drop 14 = hexEnc ((bs.drop 6).take 2) ++
      ('-' :: (hexEnc ((bs.drop 8).take 2) ++ ('-' :: hexEnc (bs.drop 10)))) := by
    rw [show (14 : Nat) = 9 + 5 from rfl, ← List.drop_drop, d9]
    exact drop_append_cons l2
  have d19 : (encodeBytes bs).drop 19 = hexEnc ((bs.drop 8).take 2) ++
      ('-' :: hexEnc (bs.drop 10)) := by
    rw [show (19 : Nat) = 14 + 5 from rfl, ← List.drop_drop, d14, t67]
    have l3 : (hexEnc [bs.getD 6 0, bs.getD 7 0]).length = 4 := by
      rw [hexEnc_length]; rfl
    exact drop_append_cons l3
  constructor
  · have hrest : (encodeBytes bs).drop 14 =
        (hextable.getD (bs.getD 6 0 / 16) ' ') ::
        ((hextable.getD (bs.getD 6 0 % 16) ' ') ::
        hexEncByte (bs.getD 7 0) ++ ('-' :: (hexEnc ((bs.drop 8).take 2) ++
        ('-' :: hexEnc (bs.drop 10))))) := by
      rw [d14, t67]
      simp [hexEnc, hexEncByte]
    exact getD_of_drop hrest ' '
  · have hrest : (encodeBytes bs).drop 19 =
        (hextable.getD (bs.getD 8 0 / 16) ' ') ::
        ((hextable.getD (bs.getD 8 0 % 16) ' ') ::
        hexEncByte (bs.getD 9 0) ++ ('-' :: hexEnc (bs.drop 10))) := by
      rw [d19, t89]
      simp [hexEnc, hexEncByte]
    exact getD_of_drop hrest ' '

lemma hextable_variant : ∀ n, 8 ≤ n → n < 12 →
    hextable.getD n ' ' = '8' ∨ hextable.getD n ' ' = '9' ∨
    hextable.getD n ' ' = 'a' ∨ hextable.getD n ' ' = 'b' := by
  decide

/-- C8: on non-nil lowercase valid canonical UUIDs, `XOR` is commutative,
and its result always carries version nibble `4` (character 14) and an
RFC 4122 variant nibble in `{8, 9, a, b}` (character 19). -/
theorem C8_xor_comm_stamped (a b : List Char) (hca : isCanonical a = true)
    (hcb : isCanonical b = true) (hna : a ≠ []) (hnb : b ≠ []) :
    XOR a b = XOR b a ∧
    ∃ c, XOR a b = .ok c ∧ c.getD 14 ' ' = '4' ∧
      (c.getD 19 ' ' = '8' ∨ c.getD 19 ' ' = '9' ∨
        c.getD 19 ' ' = 'a' ∨ c.getD 19 ' ' = 'b') := by
  obtain ⟨hsA, A, hHa, hdA, hencA, hlA, hltA, hebA, hvA, hw8A, hw12A⟩ :=
    canonical_decode hca hna
  obtain ⟨hsB, B, hHb, hdB, hencB, hlB, hltB, hebB, hvB, hw8B, hw12B⟩ :=
    canonical_decode hcb hnb
  have hxab := XOR_eval hna hnb hHa hHb hdA hdB hlA hlB
  have hxba := XOR_eval hnb hna hHb hHa hdB hdA hlB hlA
  constructor
  · rw [hxab, hxba, xorArr_comm hlA hlB]
  · have e6 := @xorArr_getD A B hlA 6 (by omega)
    rw [if_pos rfl] at e6
    have e8 := @xorArr_getD A B hlA 8 (by omega)
    rw [if_neg (by omega), if_pos rfl] at e8
    refine ⟨encodeBytes (xorArr A B), hxab, ?_, ?_⟩
    · rw [(encodeBytes_char (xorArr_length A B)).1, e6, stampVersion_div]
      rfl
    · rw [(encodeBytes_char (xorArr_length A B)).2, e8]
      exact hextable_variant _ (stampVariant_div _).1 (stampVariant_div _).2

/-- Witness for C8 at two concrete canonical UUIDs. -/
theorem C8_xor_comm_stamped_witness :
    isCanonical (("afe40693-8f63-4766-85f1-250a427f1db5").data) = true ∧
    isCanonical (("9f1f4f29-1b29-2a67-b811-92cf16d45b4b").data) = true ∧
    (XOR (("afe40693-8f63-4766-85f1-250a427f1db5").data)
        (("9f1f4f29-1b29-2a67-b811-92cf16d45b4b").data) =
      XOR (("9f1f4f29-1b29-2a67-b811-92cf16d45b4b").data)
        (("afe40693-8f63-4766-85f1-250a427f1db5").data) ∧
    ∃ c, XOR (("afe40693-8f63-4766-85f1-250a427f1db5").data)
        (("9f1f4f29-1b29-2a67-b811-92cf16d45b4b").data) = .ok c ∧
      c.getD 14 ' ' = '4' ∧
      (c.getD 19 ' ' = '8' ∨ c.getD 19 ' ' = '9' ∨
        c.getD 19 ' ' = 'a' ∨ c.getD 19 ' ' = 'b')) :=
  ⟨by decide, by decide,
    C8_xor_comm_stamped (("afe40693-8f63-4766-85f1-250a427f1db5").data)
      (("9f1f4f29-1b29-2a67-b811-92cf16d45b4b").data)
      (by decide) (by decide) (by decide) (by decide)⟩

/-- C1 as stated is false: `XOR` re-stamps the version nibble to `4`, so
the chain `a.XOR(b).XOR(a)` cannot reproduce a `b` whose version nibble is
not `4`.  Here `a` and `b` are distinct non-nil valid UUIDs (version 1 for
`b`), yet `(a XOR b) XOR a` differs from `b` in the version nibble. -/
theorem C1_counterexample :
    uuidRegexMatch (("afe40693-8f63-4766-85f1-250a427f1db5").data) = true ∧
    uuidRegexMatch (("22222222-2222-1222-8222-222222222222").data) = true ∧
    ("afe40693-8f63-4766-85f1-250a427f1db5").data ≠ [] ∧
    ("22222222-2222-1222-8222-222222222222").data ≠ [] ∧
    ("afe40693-8f63-4766-85f1-250a427f1db5").data ≠
      ("22222222-2222-1222-8222-222222222222").data ∧
    XOR (("afe40693-8f63-4766-85f1-250a427f1db5").data)
      (("22222222-2222-1222-8222-222222222222").data) =
      .ok (("8dc624b1-ad41-4544-87d3-0728605d3f97").data) ∧
    XOR (("8dc624b1-ad41-4544-87d3-0728605d3f97").data)
      (("afe40693-8f63-4766-85f1-250a427f1db5").data) ≠
      .ok (("22222222-2222-1222-8222-222222222222").data) := by
  decide

/-- C1 (amended): the self-inverse law holds for `XOR` on distinct non-nil
lowercase valid canonical UUIDs whose version nibble is `4` — exactly the
UUIDs this library generates — because the re-stamped version and variant
bits then coincide with the original bits and cancel. -/
theorem C1_xor_self_inverse (a b : List Char) (hca : isCanonical a = true)
    (hcb : isCanonical b = true) (hna : a ≠ []) (hnb : b ≠ []) (hab : a ≠ b)
    (hva : a.getD 14 ' ' = '4') (hvb : b.getD 14 ' ' = '4') :
    ∃ c, XOR a b = .ok c ∧ XOR c a = .ok b ∧ XOR c b = .ok a := by
  obtain ⟨hsA, A, hHa, hdA, hencA, hlA, hltA, hebA, hvA, hw8A, hw12A⟩ :=
    canonical_decode hca hna
  obtain ⟨hsB, B, hHb, hdB, hencB, hlB, hltB, hebB, hvB, hw8B, hw12B⟩ :=
    canonical_decode hcb hnb
  have hA6 : A.getD 6 0 / 16 = 4 := by
    rw [hva] at hvA
    rw [show fromHexChar '4' = some 4 from by decide] at hvA
    injection hvA with h
    omega
  have hB6 : B.getD 6 0 / 16 = 4 := by
    rw [hvb] at hvB
    rw [show fromHexChar '4' = some 4 from by decide] at hvB
    injection hvB with h
    omega
  have hxab := XOR_eval hna hnb hHa hHb hdA hdB hlA hlB
  have hClen := xorArr_length A B
  have hClt := xorArr_getD_lt hlA hlB hltA hltB
  have hCne := encodeBytes_ne_nil hClen
  have hHc := HashLike_encodeBytes hClen
  have hdC : hexDecode (hexEnc (xorArr A B)) = some (xorArr A B) :=
    hexDecode_hexEnc _ hClt
  have cancel : ∀ (X : List Nat), X.length = 16 → (∀ x ∈ X, x < 256) →
      X.getD 6 0 / 16 = 4 → 8 ≤ X.getD 8 0 / 16 → X.getD 8 0 / 16 < 12 →
      ∀ (Y : List Nat), Y.length = 16 → (∀ y ∈ Y, y < 256) →
      xorArr (xorArr Y X) Y = X := by
    intro X hX hXlt hX6 hX8a hX8b Y hY hYlt
    have eo : ∀ i, i < 16 → (xorArr (xorArr Y X) Y).getD i 0 =
        if i = 6 then stampVersion ((xorArr Y X).getD 6 0 ^^^ Y.getD 6 0)
        else if i = 8 then stampVariant ((xorArr Y X).getD 8 0 ^^^ Y.getD 8 0)
        else (xorArr Y X).getD i 0 ^^^ Y.getD i 0 :=
      fun i hi => xorArr_getD (by rw [xorArr_length]) hi
    have ei6 := @xorArr_getD Y X hY 6 (by omega)
    rw [if_pos rfl] at ei6
    have ei8 := @xorArr_getD Y X hY 8 (by omega)
    rw [if_neg (by omega), if_pos rfl] at ei8
    apply list_eq_of_getD (by rw [xorArr_length]) hX
    intro i hi
    by_cases h6 : i = 6
    · subst h6
      have e := eo 6 (by omega)
      rw [if_pos rfl, ei6] at e
      rw [e]
      exact stampVersion_cancel (getD_lt hXlt (by omega)) hX6
    · by_cases h8 : i = 8
      · subst h8
        have e := eo 8 (by omega)
        rw [if_neg (by omega), if_pos rfl, ei8] at e
        rw [e]
        exact stampVariant_cancel (getD_lt hXlt (by omega)) hX8a hX8b
      · have e := eo i hi
        have ein := @xorArr_getD Y X hY i hi
        rw [if_neg h6, if_neg h8] at e ein
        rw [e, ein, Nat.xor_comm (Y.getD i 0) (X.getD i 0), Nat.xor_cancel_right]
  refine ⟨encodeBytes (xorArr A B), hxab, ?_, ?_⟩
  · have hstep := XOR_eval hCne hna hHc hHa hdC hdA hClen hlA
    rw [hstep, cancel B hlB hltB hB6 hw8B hw12B A hlA hltA, hebB]
  · have hstep := XOR_eval hCne hnb hHc hHb hdC hdB hClen hlB
    rw [xorArr_comm hlA hlB] at hstep ⊢
    rw [hstep, cancel A hlA hltA hA6 hw8A hw12A B hlB hltB, hebA]

/-- Witness for the amended C1 at two concrete version-4 canonical UUIDs. -/
theorem C1_xor_self_inverse_witness :
    isCanonical (("afe40693-8f63-4766-85f1-250a427f1db5").data) = true ∧
    isCanonical (("9f1f4f29-1b29-4a67-b811-92cf16d45b4b").data) = true ∧
    (("afe40693-8f63-4766-85f1-250a427f1db5").data).getD 14 ' ' = '4' ∧
    (("9f1f4f29-1b29-4a67-b811-92cf16d45b4b").data).getD 14 ' ' = '4' ∧
    ∃ c, XOR (("afe40693-8f63-4766-85f1-250a427f1db5").data)
        (("9f1f4f29-1b29-4a67-b811-92cf16d45b4b").data) = .ok c ∧
      XOR c (("afe40693-8f63-4766-85f1-250a427f1db5").data) =
        .ok (("9f1f4f29-1b29-4a67-b811-92cf16d45b4b").data) ∧
      XOR c (("9f1f4f29-1b29-4a67-b811-92cf16d45b4b").data) =
        .ok (("afe40693-8f63-4766-85f1-250a427f1db5").data) :=
  ⟨by decide, by decide, by decide, by decide,
    C1_xor_self_inverse (("afe40693-8f63-4766-85f1-250a427f1db5").data)
      (("9f1f4f29-1b29-4a67-b811-92cf16d45b4b").data)
      (by decide) (by decide) (by decide) (by decide) (by decide)
      (by decide) (by decide)⟩

/-- Witness for C5 at a concrete canonical UUID and a malformed input. -/
theorem C5_hashLike_fromHashLike_witness :
    (∃ h, HashLike (("afe40693-8f63-4766-85f1-250a427f1db5").data) = some h ∧
      h = (("afe40693-8f63-4766-85f1-250a427f1db5").data).filter (· != '-') ∧
      h.length = 32 ∧ (∀ c ∈ h, isHexChar c = true) ∧
      FromHashLike h = ((("afe40693-8f63-4766-85f1-250a427f1db5").data), none)) ∧
    FromHashLike (("asda").data) =
      ([], some (("invalid uuid: ").data ++ ("asda").data)) :=
  ⟨C5_hashLike_fromHashLike.2.2.1 (("afe40693-8f63-4766-85f1-250a427f1db5").data)
      (by decide) (by decide),
    (C5_hashLike_fromHashLike.2.2.2 (("asda").data) (by decide) (by decide)).1
      (by decide)⟩

/-- On any non-nil string of length 36 (the length of every well-formed UUID
value), `HashLike` succeeds with a 32-character result. -/
lemma HashLike_of_length36 {u : List Char} (h36 : u.length = 36) (hne : u ≠ []) :
    ∃ hash, HashLike u = some hash ∧ hash.length = 32 := by
  have e1 : goSlice u 0 8 = some ((u.drop 0).take 8) := by
    rw [goSlice, if_pos (by omega)]
  have e2 : goSlice u 9 13 = some ((u.drop 9).take 4) := by
    rw [goSlice, if_pos (by omega)]
  have e3 : goSlice u 14 18 = some ((u.drop 14).take 4) := by
    rw [goSlice, if_pos (by omega)]
  have e4 : goSlice u 19 23 = some ((u.drop 19).take 4) := by
    rw [goSlice, if_pos (by omega)]
  have e5 : goSliceFrom u 24 = some (u.drop 24) := by
    rw [goSliceFrom, if_pos (by omega)]
  refine ⟨u.take 8 ++ ((u.drop 9).take 4 ++ ((u.drop 14).take 4 ++
      ((u.drop 19).take 4 ++ u.drop 24))), ?_, ?_⟩
  · rw [HashLike, if_neg hne]
    simp [e1, e2, e3, e4, e5]
  · simp only [List.length_append, List.length_take, List.length_drop, h36]
    omega

/-- The byte-level transform of a successful `Next`, as the code computes
it: the 14-byte big-endian sum cut to its low 14 bytes, reassembled around
bytes 6 and 8 of the input. -/
def nextBytes (b : List Nat) : List Nat :=
  let cut := natToBytesBE 14
    (natOfBytes (b.take 6 ++ ((b.drop 7).take 1 ++ (b.drop 9).take 7)) + bigPrime)
  cut.take 6 ++ ((b.drop 6).take 1 ++ ((cut.drop 6).take 1 ++
    ((b.drop 8).take 1 ++ (cut.drop 7).take 7)))

lemma bigPrime_ge : 256 ^ 13 ≤ bigPrime := by
  unfold bigPrime
  norm_num

/-- Evaluation of `nextAssemble` when `b` has 16 bytes and `cut` has 14. -/
theorem nextAssemble_eval {b cut : List Nat} (hb : b.length = 16)
    (hc : cut.length = 14) :
    nextAssemble b cut = .ok (encodeBytes (cut.take 6 ++ ((b.drop 6).take 1 ++
      ((cut.drop 6).take 1 ++ ((b.drop 8).take 1 ++ (cut.drop 7).take 7))))) := by
  have q1 : goSlice cut 0 6 = some (cut.take 6) := by
    rw [goSlice, if_pos (by omega)]
    simp
  have q2 : goSlice b 6 7 = some ((b.drop 6).take 1) := by
    rw [goSlice, if_pos (by omega)]
  have q3 : goSlice cut 6 7 = some ((cut.drop 6).take 1) := by
    rw [goSlice, if_pos (by omega)]
  have q4 : goSlice b 8 9 = some ((b.drop 8).take 1) := by
    rw [goSlice, if_pos (by omega)]
  have q5 : goSlice cut 7 14 = some ((cut.drop 7).take 7) := by
    rw [goSlice, if_pos (by omega)]
  simp only [nextAssemble, q1, q2, q3, q4, q5, List.append_assoc]

/-- Evaluation of `Next` once the operand hex-decodes to 16 bytes. -/
theorem Next_eval {u hash : List Char} {b : List Nat} (hne : u ≠ [])
    (hH : HashLike u = some hash) (hd : hexDecode hash = some b)
    (hlen : b.length = 16) :
    Next u = .ok (encodeBytes (nextBytes b)) := by
  have s1 : goSlice b 0 6 = some (b.take 6) := by
    rw [goSlice, if_pos (by omega)]
    simp
  have s2 : goSlice b 7 8 = some ((b.drop 7).take 1) := by
    rw [goSlice, if_pos (by omega)]
  have s3 : goSlice b 9 16 = some ((b.drop 9).take 7) := by
    rw [goSlice, if_pos (by omega)]
  have hsum : 256 ^ 13 ≤
      natOfBytes (b.take 6 ++ ((b.drop 7).take 1 ++ (b.drop 9).take 7)) + bigPrime :=
    le_trans bigPrime_ge (Nat.le_add_left _ _)
  have hcut := bigIntBytes_cut hsum
  rw [Next, if_neg hne, hH]
  simp only [hd, s1, s2, s3, List.append_assoc, hcut]
  rw [nextAssemble_eval hlen (natToBytesBE_length _ _)]
  simp only [nextBytes]

/-- Modelled from the claim's reference computation for `Next`: drop bytes 6
and 8, read the remaining 14 bytes as a big-endian integer, add the fixed
odd constant 908070605040302010203040506070809, keep only the low-order 14
bytes of the sum, place them at positions 0-5, 7 and 9-15, and put the
original bytes 6 and 8 back at positions 6 and 8. -/
def nextRef (b : List Nat) : List Nat :=
  let low := natToBytesBE 14 (natOfBytes ((b.eraseIdx 8).eraseIdx 6) + bigPrime)
  low.take 6 ++ [b.getD 6 0] ++ [low.getD 6 0] ++ [b.getD 8 0] ++ low.drop 7

lemma nextBytes_eq_nextRef {b : List Nat} (h : b.length = 16) :
    nextBytes b = nextRef b := by
  have hpayload : (b.eraseIdx 8).eraseIdx 6 =
      b.take 6 ++ ((b.drop 7).take 1 ++ (b.drop 9).take 7) := by
    rw [List.eraseIdx_eq_take_drop_succ, List.eraseIdx_eq_take_drop_succ]
    have t6 : (b.take 8 ++ b.drop 9).take 6 = b.take 6 := by
      rw [List.take_append_of_le_length (by simp [h]), List.take_take]
      norm_num
    have d7 : (b.take 8 ++ b.drop 9).drop 7 = (b.drop 7).take 1 ++ b.drop 9 := by
      rw [List.drop_append_of_le_length (by simp [h]), List.drop_take]
    rw [t6, d7]
    congr 2
    rw [List.take_of_length_le (by simp [h])]
  simp only [nextBytes, nextRef]
  rw [hpayload]
  have hcutlen : (natToBytesBE 14
      (natOfBytes (b.take 6 ++ ((b.drop 7).take 1 ++ (b.drop 9).take 7)) +
        bigPrime)).length = 14 := natToBytesBE_length _ _
  have e6 : (b.drop 6).take 1 = [b.getD 6 0] := by
    rw [drop_getD (by omega) 0]
    rfl
  have e8 : (b.drop 8).take 1 = [b.getD 8 0] := by
    rw [drop_getD (by omega) 0]
    rfl
  have ecut6 : ((natToBytesBE 14
      (natOfBytes (b.take 6 ++ ((b.drop 7).take 1 ++ (b.drop 9).take 7)) +
        bigPrime)).drop 6).take 1 = [(natToBytesBE 14
      (natOfBytes (b.take 6 ++ ((b.drop 7).take 1 ++ (b.drop 9).take 7)) +
        bigPrime)).getD 6 0] := by
    rw [drop_getD (by omega) 0]
    rfl
  have ecut7 : ((natToBytesBE 14
      (natOfBytes (b.take 6 ++ ((b.drop 7).take 1 ++ (b.drop 9).take 7)) +
        bigPrime)).drop 7).take 7 = (natToBytesBE 14
      (natOfBytes (b.take 6 ++ ((b.drop 7).take 1 ++ (b.drop 9).take 7)) +
        bigPrime)).drop 7 := by
    rw [List.take_of_length_le (by simp [hcutlen])]
  rw [e6, e8, ecut6, ecut7]
  simp [List.append_assoc]

/-- C3: on every non-nil lowercase valid canonical UUID, `Next` computes
exactly the claim's reference function on the decoded 16 bytes, re-encoded
to lowercase canonical form; and `Next` of the nil UUID is nil without
error. -/
theorem C3_next_reference :
    Next [] = .ok [] ∧
    ∀ u, isCanonical u = true → u ≠ [] →
      ∃ A, hexDecode (u.filter (· != '-')) = some A ∧ A.length = 16 ∧
        Next u = .ok (encodeBytes (nextRef A)) := by
  refine ⟨rfl, ?_⟩
  intro u hc hne
  obtain ⟨hreg, hlow⟩ := isCanonical_elim hc
  obtain ⟨g1, g2, v, x1, x2, x3, w, y1, y2, y3, g5, hsh⟩ :=
    uuidRegexMatch_shape hreg
  obtain ⟨hash, A, hH, hd, henc, hlen, hlt, heb, hv14, h8a, h8b⟩ :=
    canonical_decode hc hne
  have hfilter : u.filter (· != '-') = hash := by
    have h1 := hash_filter hsh
    have h2 := hsh.hashLike
    rw [hH] at h2
    injection h2 with h2
    rw [h1, h2]
  refine ⟨A, by rw [hfilter]; exact hd, hlen, ?_⟩
  rw [Next_eval hne hH hd hlen, nextBytes_eq_nextRef hlen]

/-- Witness for C3 at a concrete canonical UUID. -/
theorem C3_next_reference_witness :
    Next [] = .ok [] ∧
    (isCanonical (("afe40693-8f63-4766-85f1-250a427f1db5").data) = true ∧
    ∃ A, hexDecode ((("afe40693-8f63-4766-85f1-250a427f1db5").data).filter
        (· != '-')) = some A ∧ A.length = 16 ∧
      Next (("afe40693-8f63-4766-85f1-250a427f1db5").data) =
        .ok (encodeBytes (nextRef A))) :=
  ⟨C3_next_reference.1, by decide,
    C3_next_reference.2 (("afe40693-8f63-4766-85f1-250a427f1db5").data)
      (by decide) (by decide)⟩

/-- C2: counterexample — on the non-nil three-character operand "abc" the
out-of-range slice `u[0:8]` makes `Next` panic instead of returning an
error, and `XOR` panics likewise; so the functions do have a failure
outcome other than the hex-decode error on arbitrary strings. -/
theorem C2_counterexample :
    ("abc").data ≠ [] ∧ Next (("abc").data) = .panic ∧
    XOR (("abc").data) (("afe40693-8f63-4766-85f1-250a427f1db5").data) =
      .panic := by
  decide

/-- C2 (amended to operands of the well-formed length 36, where the slices
of `HashLike` are in range): if the operand fails to hex-decode, `Next`
fails with exactly the invalid-uuid error carrying the operand and `XOR`
fails with exactly the invalid-left/right-side error carrying the offending
operand; if hex-decoding succeeds both functions succeed, so there is no
other failure outcome. -/
theorem C2_hex_error_handling (u v : List Char) (hu : u.length = 36)
    (hv : v.length = 36) :
    ∃ h1 h2, HashLike u = some h1 ∧ HashLike v = some h2 ∧
      (hexDecode h1 = none →
        Next u = .err (("invalid uuid: ").data ++ u) ∧
        XOR u v = .err (("invalid left side parameter: ").data ++ u)) ∧
      (∀ b1, hexDecode h1 = some b1 →
        (∃ out, Next u = .ok out) ∧
        (hexDecode h2 = none →
          XOR u v = .err (("invalid right side parameter: ").data ++ v)) ∧
        (∀ b2, hexDecode h2 = some b2 → ∃ out, XOR u v = .ok out)) := by
  have hune : u ≠ [] := by intro h; rw [h] at hu; simp at hu
  have hvne : v ≠ [] := by intro h; rw [h] at hv; simp at hv
  obtain ⟨h1, hH1, hl1⟩ := HashLike_of_length36 hu hune
  obtain ⟨h2, hH2, hl2⟩ := HashLike_of_length36 hv hvne
  refine ⟨h1, h2, hH1, hH2, ?_, ?_⟩
  · intro hd1
    refine ⟨?_, ?_⟩
    · rw [Next, if_neg hune, hH1]
      simp only [hd1]
    · rw [XOR, if_neg (by tauto), hH1, hH2]
      simp only [hd1]
  · intro b1 hd1
    have hb1 : b1.length = 16 := by have := hexDecode_length h1 hd1; omega
    refine ⟨⟨_, Next_eval hune hH1 hd1 hb1⟩, ?_, ?_⟩
    · intro hd2
      rw [XOR, if_neg (by tauto), hH1, hH2]
      simp only [hd1, hd2]
    · intro b2 hd2
      have hb2 : b2.length = 16 := by have := hexDecode_length h2 hd2; omega
      exact ⟨_, XOR_eval hune hvne hH1 hH2 hd1 hd2 hb1 hb2⟩

/-- Witness for C2's amended theorem on a non-hex length-36 left operand and
a valid right operand. -/
theorem C2_hex_error_handling_witness :
    ((("zzzzzzzz-zzzz-zzzz-zzzz-zzzzzzzzzzzz").data).length = 36 ∧
      (("afe40693-8f63-4766-85f1-250a427f1db5").data).length = 36) ∧
    ∃ h1 h2, HashLike (("zzzzzzzz-zzzz-zzzz-zzzz-zzzzzzzzzzzz").data) = some h1 ∧
      HashLike (("afe40693-8f63-4766-85f1-250a427f1db5").data) = some h2 ∧
      (hexDecode h1 = none →
        Next (("zzzzzzzz-zzzz-zzzz-zzzz-zzzzzzzzzzzz").data) =
          .err (("invalid uuid: ").data ++
            ("zzzzzzzz-zzzz-zzzz-zzzz-zzzzzzzzzzzz").data) ∧
        XOR (("zzzzzzzz-zzzz-zzzz-zzzz-zzzzzzzzzzzz").data)
            (("afe40693-8f63-4766-85f1-250a427f1db5").data) =
          .err (("invalid left side parameter: ").data ++
            ("zzzzzzzz-zzzz-zzzz-zzzz-zzzzzzzzzzzz").data)) ∧
      (∀ b1, hexDecode h1 = some b1 →
        (∃ out, Next (("zzzzzzzz-zzzz-zzzz-zzzz-zzzzzzzzzzzz").data) = .ok out) ∧
        (hexDecode h2 = none →
          XOR (("zzzzzzzz-zzzz-zzzz-zzzz-zzzzzzzzzzzz").data)
              (("afe40693-8f63-4766-85f1-250a427f1db5").data) =
            .err (("invalid right side parameter: ").data ++
              ("afe40693-8f63-4766-85f1-250a427f1db5").data)) ∧
        (∀ b2, hexDecode h2 = some b2 →
          ∃ out, XOR (("zzzzzzzz-zzzz-zzzz-zzzz-zzzzzzzzzzzz").data)
            (("afe40693-8f63-4766-85f1-250a427f1db5").data) = .ok out)) :=
  ⟨⟨by decide, by decide⟩, C2_hex_error_handling _ _ (by decide) (by decide)⟩

/-- C6: the library's maximum millisecond timestamp is 281474976710655
(2^48 - 1); within that range, for any ten random bytes, reading the time
back from a freshly built time-UUID recovers the instant truncated to
millisecond resolution; and the round trip is exact for the six listed
millisecond inputs. -/
theorem C6_time_roundtrip :
    maxTime = 281474976710655 ∧
    (∀ r sec nsec, r.length = 10 → (∀ x ∈ r, x < 256) →
      nsec < 1000000000 → Timestamp sec nsec ≤ maxTime →
      ∃ u, NewTime r sec nsec = .ok u ∧
        TimeUUIDToTime u = .ok (sec, nsec / 1000000 * 1000000)) ∧
    (∀ ms, ms ∈ [0, 100, 1569479272, 9999999999, 99999999999999,
        281474976710655] → ∀ r, r.length = 10 → (∀ x ∈ r, x < 256) →
      ∃ u, NewTime r (TimeGo ms).1 (TimeGo ms).2 = .ok u ∧
        TimeUUIDToTime u = .ok (TimeGo ms)) := by
  have hmax : maxTime = 281474976710655 := by decide
  have main : ∀ r sec nsec, r.length = 10 → (∀ x ∈ r, x < 256) →
      nsec < 1000000000 → Timestamp sec nsec ≤ maxTime →
      ∃ u, NewTime r sec nsec = .ok u ∧
        TimeUUIDToTime u = .ok (sec, nsec / 1000000 * 1000000) := by
    intro r sec nsec hr hb hnsec hms
    set ms := Timestamp sec nsec with hmsdef
    set B : List Nat := [(ms >>> 40) % 256, (ms >>> 32) % 256, (ms >>> 24) % 256,
      (ms >>> 16) % 256, (ms >>> 8) % 256, ms % 256,
      stampVersion (r.getD 0 0), r.getD 1 0, stampVariant (r.getD 2 0)] ++
      r.drop 3 with hBdef
    have hBlen : B.length = 16 := by
      rw [hBdef]
      simp [hr]
    have hBlt : ∀ x ∈ B, x < 256 := by
      intro x hx
      rw [hBdef] at hx
      simp only [List.mem_append, List.mem_cons, List.not_mem_nil, or_false] at hx
      rcases hx with (rfl | rfl | rfl | rfl | rfl | rfl | rfl | rfl | rfl) | hx
      · exact Nat.mod_lt _ (by norm_num)
      · exact Nat.mod_lt _ (by norm_num)
      · exact Nat.mod_lt _ (by norm_num)
      · exact Nat.mod_lt _ (by norm_num)
      · exact Nat.mod_lt _ (by norm_num)
      · exact Nat.mod_lt _ (by norm_num)
      · exact stampVersion_lt _
      · refine hb _ ?_
        have h1 : 1 < r.length := by omega
        rw [List.getD_eq_getElem r 0 h1]
        exact List.getElem_mem h1
      · exact stampVariant_lt _
      · exact hb _ (List.mem_of_mem_drop hx)
    refine ⟨encodeBytes B, ?_, ?_⟩
    · rw [NewTime]
      simp only [← hmsdef]
      rw [if_neg (by omega)]
    · rw [TimeUUIDToTime]
      simp only [HashLike_encodeBytes hBlen, hexDecode_hexEnc B hBlt]
      have g0 : goIndex B 0 = some ((ms >>> 40) % 256) := by rw [hBdef]; rfl
      have g1 : goIndex B 1 = some ((ms >>> 32) % 256) := by rw [hBdef]; rfl
      have g2 : goIndex B 2 = some ((ms >>> 24) % 256) := by rw [hBdef]; rfl
      have g3 : goIndex B 3 = some ((ms >>> 16) % 256) := by rw [hBdef]; rfl
      have g4 : goIndex B 4 = some ((ms >>> 8) % 256) := by rw [hBdef]; rfl
      have g5 : goIndex B 5 = some (ms % 256) := by rw [hBdef]; rfl
      simp only [g0, g1, g2, g3, g4, g5]
      have hlt48 : ms < 2 ^ 48 := by omega
      rw [ms_readback hlt48]
      have h1 : ms / 1000 = sec := by
        rw [hmsdef]; unfold Timestamp; omega
      have h2 : ms % 1000 = nsec / 1000000 := by
        rw [hmsdef]; unfold Timestamp; omega
      rw [TimeGo, h1, h2]
  refine ⟨hmax, main, ?_⟩
  intro ms hmem r hr hb
  have hle : ms ≤ maxTime := by
    rw [hmax]
    simp only [List.mem_cons, List.not_mem_nil, or_false] at hmem
    rcases hmem with rfl | rfl | rfl | rfl | rfl | rfl <;> norm_num
  have hns : (TimeGo ms).2 < 1000000000 := by
    unfold TimeGo
    simp only
    have : ms % 1000 < 1000 := Nat.mod_lt _ (by norm_num)
    omega
  have hts : Timestamp (TimeGo ms).1 (TimeGo ms).2 = ms := by
    unfold TimeGo Timestamp
    simp only
    omega
  obtain ⟨u, hu1, hu2⟩ := main r (TimeGo ms).1 (TimeGo ms).2 hr hb hns
    (by rw [hts]; exact hle)
  refine ⟨u, hu1, ?_⟩
  rw [hu2]
  have hnd : (TimeGo ms).2 / 1000000 * 1000000 = (TimeGo ms).2 := by
    unfold TimeGo
    simp only
    omega
  rw [hnd]

/-- Witness for C6 at concrete random bytes and concrete instants. -/
theorem C6_time_roundtrip_witness :
    maxTime = 281474976710655 ∧
    (∃ u, NewTime [10, 11, 12, 13, 14, 15, 16, 17, 18, 19] 1 5000000 = .ok u ∧
      TimeUUIDToTime u = .ok (1, 5000000 / 1000000 * 1000000)) ∧
    (∃ u, NewTime [10, 11, 12, 13, 14, 15, 16, 17, 18, 19]
        (TimeGo 100).1 (TimeGo 100).2 = .ok u ∧
      TimeUUIDToTime u = .ok (TimeGo 100)) :=
  ⟨C6_time_roundtrip.1,
    C6_time_roundtrip.2.1 [10, 11, 12, 13, 14, 15, 16, 17, 18, 19] 1 5000000
      (by decide) (by decide) (by decide) (by decide),
    C6_time_roundtrip.2.2 100 (by decide)
      [10, 11, 12, 13, 14, 15, 16, 17, 18, 19] (by decide) (by decide)⟩

/-- C9: counterexample — the 16-byte value 01 00 ... 00 encodes to a string
that fails the validating regex, so `Scan` rejects it with the parse error
(and clobbers the receiver with the nil value), refuting that every 16-byte
binary value is accepted. -/
theorem C9_counterexample :
    (1 :: List.replicate 15 0).length = 16 ∧
    Scan (("afe40693-8f63-4766-85f1-250a427f1db5").data)
      (.bytes (1 :: List.replicate 15 0)) =
    (some ((("invalid uuid: ").data ++
      ("01000000-0000-0000-0000-000000000000").data)), []) := by
  decide

/-- C9 (amended): `Scan` of NULL succeeds and sets the receiver to nil; a
16-byte value is encoded to canonical form and handed to `FromString`,
whose value is assigned to the receiver even on error, and it succeeds
exactly when the encoding is the zero UUID or matches the validating regex;
every other input — byte slices of other lengths (whose dynamic type prints
as `[]uint8`) and values of any other type — fails with the cannot-convert
error naming the received type and leaves the receiver unchanged. -/
theorem C9_scan (cur : List Char) :
    Scan cur .null = (none, []) ∧
    (∀ b : List Nat, b.length = 16 →
      Scan cur (.bytes b) =
        ((FromString (encodeBytes b)).2, (FromString (encodeBytes b)).1) ∧
      ((FromString (encodeBytes b)).2 = none ↔
        encodeBytes b = zeroUUIDStr ∨
          uuidRegexMatch (encodeBytes b) = true)) ∧
    (∀ b : List Nat, b.length ≠ 16 →
      Scan cur (.bytes b) = (some (fmtCannotConvert (("[]uint8").data)), cur)) ∧
    (∀ typeName, Scan cur (.other typeName) =
      (some (fmtCannotConvert typeName), cur)) := by
  refine ⟨rfl, ?_, ?_, fun _ => rfl⟩
  · intro b hb
    have hne : encodeBytes b ≠ [] := encodeBytes_ne_nil hb
    constructor
    · rw [Scan]
      simp only [if_pos hb]
    · rw [FromString]
      rcases Decidable.em (encodeBytes b = zeroUUIDStr) with hz | hz
      · rw [if_pos (Or.inr hz)]
        simp [hz]
      · rw [if_neg (by tauto)]
        rcases hreg : uuidRegexMatch (encodeBytes b) with _ | _
        · rw [if_pos rfl]
          simp [hz, hreg]
        · rw [if_neg (by simp)]
          simp [hz, hreg]
  · intro b hb
    rw [Scan]
    simp only [if_neg hb]

/-- Witness for C9 at a concrete receiver, a decodable 16-byte value, a
wrong-length byte value and a string-typed value. -/
theorem C9_scan_witness :
    Scan (("ab").data) .null = (none, []) ∧
    (Scan (("ab").data) (.bytes [0xaf, 0xe4, 0x06, 0x93, 0x8f, 0x63, 0x47,
        0x66, 0x85, 0xf1, 0x25, 0x0a, 0x42, 0x7f, 0x1d, 0xb5]) =
      ((FromString (encodeBytes [0xaf, 0xe4, 0x06, 0x93, 0x8f, 0x63, 0x47,
        0x66, 0x85, 0xf1, 0x25, 0x0a, 0x42, 0x7f, 0x1d, 0xb5])).2,
       (FromString (encodeBytes [0xaf, 0xe4, 0x06, 0x93, 0x8f, 0x63, 0x47,
        0x66, 0x85, 0xf1, 0x25, 0x0a, 0x42, 0x7f, 0x1d, 0xb5])).1) ∧
      ((FromString (encodeBytes [0xaf, 0xe4, 0x06, 0x93, 0x8f, 0x63, 0x47,
        0x66, 0x85, 0xf1, 0x25, 0x0a, 0x42, 0x7f, 0x1d, 0xb5])).2 = none ↔
        encodeBytes [0xaf, 0xe4, 0x06, 0x93, 0x8f, 0x63, 0x47,
          0x66, 0x85, 0xf1, 0x25, 0x0a, 0x42, 0x7f, 0x1d, 0xb5] = zeroUUIDStr ∨
        uuidRegexMatch (encodeBytes [0xaf, 0xe4, 0x06, 0x93, 0x8f, 0x63, 0x47,
          0x66, 0x85, 0xf1, 0x25, 0x0a, 0x42, 0x7f, 0x1d, 0xb5]) = true)) ∧
    Scan (("ab").data) (.bytes [1, 2]) =
      (some (fmtCannotConvert (("[]uint8").data)), ("ab").data) ∧
    Scan (("ab").data) (.other (("string").data)) =
      (some (fmtCannotConvert (("string").data)), ("ab").data) :=
  ⟨(C9_scan (("ab").data)).1,
    (C9_scan (("ab").data)).2.1 _ (by decide),
    (C9_scan (("ab").data)).2.2.1 [1, 2] (by decide),
    (C9_scan (("ab").data)).2.2.2 (("string").data)⟩

/-- C10: counterexample — a backquoted Go raw-string literal around a valid
UUID is neither `null` nor a JSON string literal (it does not start with a
double quote), yet `UnmarshalJSON` accepts it without error and assigns the
receiver, because `strconv.Unquote` also accepts backquoted literals. -/
theorem C10_counterexample :
    (backquote :: ((("afe40693-8f63-4766-85f1-250a427f1db5").data) ++
      [backquote])) ≠ ("null").data ∧
    (backquote :: ((("afe40693-8f63-4766-85f1-250a427f1db5").data) ++
      [backquote])).getD 0 ' ' ≠ '"' ∧
    UnmarshalJSON [] (backquote :: ((("afe40693-8f63-4766-85f1-250a427f1db5").data)
      ++ [backquote])) =
      (none, ("afe40693-8f63-4766-85f1-250a427f1db5").data) := by
  decide

/-- C10 (amended): `UnmarshalJSON` of the literal `null` is a no-op — no
error, receiver unchanged; and any input that `strconv.Unquote` rejects is
rejected with the invalid-json error carrying the input, leaving the
receiver unchanged. -/
theorem C10_unmarshal_null (cur b : List Char) :
    UnmarshalJSON cur (("null").data) = (none, cur) ∧
    (b ≠ ("null").data → goUnquote b = none →
      UnmarshalJSON cur b =
        (some ((("invalid json value for uuid (must be string or null): ").data)
          ++ b), cur)) := by
  constructor
  · rw [UnmarshalJSON, if_pos rfl]
  · intro hne hq
    rw [UnmarshalJSON, if_neg hne]
    simp only [hq]

/-- Witness for C10 at a concrete receiver and the unquotable input "123". -/
theorem C10_unmarshal_null_witness :
    UnmarshalJSON (("ab").data) (("null").data) = (none, ("ab").data) ∧
    UnmarshalJSON (("ab").data) (("123").data) =
      (some ((("invalid json value for uuid (must be string or null): ").data)
        ++ ("123").data), ("ab").data) :=
  ⟨(C10_unmarshal_null (("ab").data) (("123").data)).1,
    (C10_unmarshal_null (("ab").data) (("123").data)).2 (by decide) (by decide)⟩

end UUIDGo
